import Mathlib

/-!
# fqwb input method: dictionary store and composition engine

A shallow embedding of `src/fqwb_tsf.cpp` / `src/fqwb_tsf.h`.

* `std::wstring` is a list of `wchar_t` code units (`List Nat`).
* `std::map<std::wstring, V>` is an association list kept in key order,
  with `find` and `operator[]`.
* member functions become functions from the object state to a result and the
  new object state.
* `int` and `size_t` values (page numbers, page size, candidate counts and
  indices) are `Int` and `Nat`. This agrees with the C++ arithmetic as long as
  the values stay in the range of `int` (fewer than `2^31` candidates, and
  `current_page * page_size + page_size` below `2^31`); outside it the C++
  signed arithmetic is undefined. The mixed `int` / `size_t` comparisons of
  the source are only reached with non-negative `int` operands.
* the file system seen by `initialize` / `load_dictionary` and the keyboard
  state read by `GetKeyState` are explicit arguments.
-/

namespace Fqwb

/-! ## Strings and maps -/

/-- A `std::wstring`: the sequence of its `wchar_t` code units. -/
abbrev wstring := List Nat

/-- The `operator<` of `std::wstring` (lexicographic on code units), the key
order of the `std::map`s. -/
def wstring_lt : wstring → wstring → Bool
  | [], [] => false
  | [], _ :: _ => true
  | _ :: _, [] => false
  | a :: as, b :: bs =>
    if a < b then true else if b < a then false else wstring_lt as bs

/-- A `std::map<std::wstring, V>`: its entries in iteration (key) order. -/
abbrev wmap (V : Type) := List (wstring × V)

/-- Lookup `m.find(key)`: the mapped value, `none` standing for `m.end()`. -/
def map_find {V : Type} : wmap V → wstring → Option V
  | [], _ => none
  | (k, v) :: rest, key => if k = key then some v else map_find rest key

/-- Assignment `m[key] = v`: replaces the value under `key`, or inserts the entry at its
place in key order. -/
def map_set {V : Type} : wmap V → wstring → V → wmap V
  | [], key, v => [(key, v)]
  | (k, w) :: rest, key, v =>
    if k = key then (key, v) :: rest
    else if wstring_lt key k then (key, v) :: (k, w) :: rest
    else (k, w) :: map_set rest key v

/-- The keys of a map, in iteration order. -/
def map_keys {V : Type} (m : wmap V) : List wstring := m.map Prod.fst

/-- A dictionary: `std::map<std::wstring, std::vector<std::wstring>>`. -/
abbrev dictionary := wmap (List wstring)

/-- Statement `d[code].push_back(characters)`: `operator[]` creates an empty vector when
`code` is absent, then the text is appended. -/
def dict_push (d : dictionary) (code characters : wstring) : dictionary :=
  map_set d code ((map_find d code).getD [] ++ [characters])

/-! ## dictionary_manager -/

/-- The data members of `dictionary_manager` (fqwb_tsf.h). -/
structure dictionary_manager where
  dict : dictionary
  dictionaries : wmap dictionary
  initialized : Bool
  data_dir : wstring
  current_dict_name : wstring
  deriving DecidableEq

/-- The wide string `L"default"`. -/
def L_default : wstring := [100, 101, 102, 97, 117, 108, 116]

/-- The constructor `dictionary_manager::dictionary_manager()`. -/
def dictionary_manager.new : dictionary_manager :=
  { dict := [], dictionaries := [], initialized := false, data_dir := [],
    current_dict_name := L_default }

/-- Member function `dictionary_manager::search_code`. -/
def search_code (s : dictionary_manager) (code : wstring) : List wstring :=
  if !s.initialized then []
  else
    match map_find s.dict code with
    | some v => v
    | none => []

/-- Member function `dictionary_manager::add_word`. -/
def add_word (s : dictionary_manager) (code characters : wstring) :
    Bool × dictionary_manager :=
  if !s.initialized then (false, s)
  else
    let s1 := { s with dict := dict_push s.dict code characters }
    let s2 :=
      if s1.current_dict_name ≠ [] then
        { s1 with
          dictionaries :=
            map_set s1.dictionaries s1.current_dict_name
              (dict_push ((map_find s1.dictionaries s1.current_dict_name).getD [])
                code characters) }
      else s1
    (true, s2)

/-- Member function `dictionary_manager::save_user_dictionary`. -/
def save_user_dictionary (s : dictionary_manager) : Bool × dictionary_manager :=
  if !s.initialized then (false, s) else (true, s)

/-- Member function `dictionary_manager::clear_user_dictionary`. -/
def clear_user_dictionary (s : dictionary_manager) : Bool × dictionary_manager :=
  if !s.initialized then (false, s) else (true, s)

/-- Member function `dictionary_manager::get_all_codes`. -/
def get_all_codes (s : dictionary_manager) : List wstring :=
  if !s.initialized then [] else map_keys s.dict

/-- Library function `::iswspace` on the code units used by dictionary files: the C white-space
characters (tab, line feed, vertical tab, form feed, carriage return, space)
and the Unicode space separators of the Windows C runtime. -/
def iswspace (c : Nat) : Bool :=
  (9 ≤ c && c ≤ 13) || c = 32 || c = 0x85 || c = 0xA0 || c = 0x1680 ||
  (0x2000 ≤ c && c ≤ 0x200A) || c = 0x2028 || c = 0x2029 || c = 0x202F ||
  c = 0x205F || c = 0x3000

/-- Call `line.find(L' ')`: the index of the first space, `none` for `npos`. -/
def find_space : wstring → Option Nat
  | [] => none
  | c :: rest => if c = 32 then some 0 else (find_space rest).map (· + 1)

/-- The body of the `while (std::getline(file, line))` loop of
`load_dictionary` for one line: the dictionary being built after the line. -/
def load_line (new_dict : dictionary) (line : wstring) : dictionary :=
  if line = [] then new_dict
  else
    match find_space line with
    | none => new_dict
    | some pos =>
      if 0 < pos ∧ pos < line.length - 1 then
        let code := (line.take pos).filter (fun c => !iswspace c)
        let characters := (line.drop (pos + 1)).filter (fun c => !iswspace c)
        if code ≠ [] ∧ characters ≠ [] then dict_push new_dict code characters
        else new_dict
      else new_dict

/-- The dictionary `load_dictionary` builds from the lines of a file. -/
def load_lines (lines : List wstring) : dictionary :=
  lines.foldl load_line []

/-- Member function `dictionary_manager::load_dictionary`. The file at `file_path` is given by
`file`: `none` when it cannot be opened, otherwise the lines `std::getline`
yields. -/
def load_dictionary (s : dictionary_manager) (dict_name : wstring)
    (file : Option (List wstring)) : Bool × dictionary_manager :=
  match file with
  | none => (false, s)
  | some lines =>
    let new_dict := load_lines lines
    if new_dict ≠ [] then
      (true, { s with dictionaries := map_set s.dictionaries dict_name new_dict })
    else (false, s)

/-- Member function `dictionary_manager::switch_dictionary`. -/
def switch_dictionary (s : dictionary_manager) (dict_name : wstring) :
    Bool × dictionary_manager :=
  if !s.initialized then (false, s)
  else
    match map_find s.dictionaries dict_name with
    | none => (false, s)
    | some d => (true, { s with current_dict_name := dict_name, dict := d })

/-- Member function `dictionary_manager::get_available_dictionaries`. -/
def get_available_dictionaries (s : dictionary_manager) : List wstring :=
  if !s.initialized then [] else map_keys s.dictionaries

/-- Member function `dictionary_manager::get_current_dictionary`. -/
def get_current_dictionary (s : dictionary_manager) : wstring :=
  s.current_dict_name

/-- One result of `FindFirstFileW` / `FindNextFileW` for `data_dir\*.dic`,
together with what opening that file gives. -/
structure dir_entry where
  cFileName : wstring
  is_directory : Bool
  file : Option (List wstring)
  deriving DecidableEq

/-- Call `s.find_last_of(L'.')`: the index of the last dot, `none` for `npos`. -/
def find_last_dot : wstring → Option Nat
  | [] => none
  | c :: rest =>
    match find_last_dot rest with
    | some i => some (i + 1)
    | none => if c = 46 then some 0 else none

/-- Expression `file_name.substr(0, file_name.find_last_of(L'.'))`. -/
def dict_name_of (file_name : wstring) : wstring :=
  match find_last_dot file_name with
  | some i => file_name.take i
  | none => file_name

/-- The body of the `do ... while (FindNextFileW ...)` loop of `initialize`
for one directory entry. -/
def initialize_entry (s : dictionary_manager) (e : dir_entry) : dictionary_manager :=
  if !e.is_directory then
    let dict_name := dict_name_of e.cFileName
    let r := load_dictionary s dict_name e.file
    if r.1 then
      if r.2.dictionaries.length = 1 then (switch_dictionary r.2 dict_name).2
      else r.2
    else r.2
  else s

/-- The built-in sample words of `initialize`. -/
def default_words : List (wstring × wstring) :=
  [([97, 98, 99], [0x6D4B, 0x8BD5]),
   ([100, 101, 102], [0x8F93, 0x5165, 0x6CD5]),
   ([103, 104, 105], [87, 105, 110, 100, 111, 119, 115]),
   ([106, 107, 108], [84, 83, 70]),
   ([109, 110, 111], [0x98CE, 0x7434, 0x4E94, 0x7B14])]

/-- The member function `initialize` of `dictionary_manager`. `entries` is the enumeration of
`dir_path\*.dic` (empty when `FindFirstFileW` fails). -/
def initialize_dictionary_manager (s : dictionary_manager) (dir_path : wstring)
    (entries : List dir_entry) : Bool × dictionary_manager :=
  let s1 := { s with data_dir := dir_path, initialized := true }
  let s2 := entries.foldl initialize_entry s1
  if s2.dictionaries = [] then
    let s3 := default_words.foldl (fun t w => (add_word t w.1 w.2).2) s2
    (true, { s3 with dictionaries := map_set s3.dictionaries s3.current_dict_name s3.dict })
  else (true, s2)

/-! ## fqwb_input_method -/

/-- The data members of `fqwb_input_method` (fqwb_tsf.h); the owned
`dictionary_manager` object is held by value. -/
structure fqwb_input_method where
  dict_manager : dictionary_manager
  current_code : wstring
  current_candidates : List wstring
  initialized : Bool
  auto_commit : Bool
  shift_select : Bool
  current_page : Int
  page_size : Int
  deriving DecidableEq

/-- Constant `MAX_CODE_LENGTH` (fqwb_tsf.h). -/
def MAX_CODE_LENGTH : Nat := 4

/-- Virtual-key code `VK_BACK` (the key codes are those of `windows.h`). -/
def VK_BACK : Nat := 0x08
/-- Virtual-key code `VK_RETURN`. -/
def VK_RETURN : Nat := 0x0D
/-- Virtual-key code `VK_ESCAPE`. -/
def VK_ESCAPE : Nat := 0x1B
/-- Virtual-key code `VK_SPACE`. -/
def VK_SPACE : Nat := 0x20
/-- Virtual-key code `VK_PRIOR` (Page-up). -/
def VK_PRIOR : Nat := 0x21
/-- Virtual-key code `VK_NEXT` (Page-down). -/
def VK_NEXT : Nat := 0x22

/-- The constructor `fqwb_input_method::fqwb_input_method()`. -/
def fqwb_input_method.new : fqwb_input_method :=
  { dict_manager := dictionary_manager.new, current_code := [],
    current_candidates := [], initialized := false, auto_commit := true,
    shift_select := true, current_page := 0, page_size := 9 }

/-- The member function `initialize` of `fqwb_input_method`. -/
def initialize_input_method (s : fqwb_input_method) (data_dir : wstring)
    (entries : List dir_entry) : Bool × fqwb_input_method :=
  let r := initialize_dictionary_manager s.dict_manager data_dir entries
  (r.1, { s with dict_manager := r.2, initialized := r.1 })

/-- Member function `fqwb_input_method::set_auto_commit`. -/
def set_auto_commit (s : fqwb_input_method) (enable : Bool) : fqwb_input_method :=
  { s with auto_commit := enable }

/-- Member function `fqwb_input_method::set_shift_select`. -/
def set_shift_select (s : fqwb_input_method) (enable : Bool) : fqwb_input_method :=
  { s with shift_select := enable }

/-- Member function `fqwb_input_method::get_total_pages`. The quotient is computed on
`size_t` values: `page_size` is positive there. -/
def get_total_pages (s : fqwb_input_method) : Int :=
  if s.page_size ≤ 0 ∨ s.current_candidates = [] then 1
  else
    (((s.current_candidates.length + s.page_size.toNat - 1) / s.page_size.toNat : Nat) : Int)

/-- Member function `fqwb_input_method::next_page`. -/
def next_page (s : fqwb_input_method) : fqwb_input_method :=
  let total_pages := get_total_pages s
  if s.current_page < total_pages - 1 then { s with current_page := s.current_page + 1 }
  else s

/-- Member function `fqwb_input_method::prev_page`. -/
def prev_page (s : fqwb_input_method) : fqwb_input_method :=
  if s.current_page > 0 then { s with current_page := s.current_page - 1 } else s

/-- Member function `fqwb_input_method::set_page_size`. -/
def set_page_size (s : fqwb_input_method) (size : Int) : fqwb_input_method :=
  if size > 0 then { s with page_size := size, current_page := 0 } else s

/-- The loop `for (int i = start_index; i < end_index; i++)
result.push_back(current_candidates[i]);` with `count` iterations left to run
from index `i`. -/
def page_loop (candidates : List wstring) : Int → Nat → List wstring → List wstring
  | _, 0, result => result
  | i, count + 1, result =>
    page_loop candidates (i + 1) count (result ++ [candidates.getD i.toNat []])

/-- Member function `fqwb_input_method::get_current_page_candidates`. -/
def get_current_page_candidates (s : fqwb_input_method) : List wstring :=
  if s.current_candidates = [] ∨ s.page_size ≤ 0 then []
  else
    let start_index := s.current_page * s.page_size
    let end_index := min (start_index + s.page_size) (s.current_candidates.length : Int)
    page_loop s.current_candidates start_index (end_index - start_index).toNat []

/-- Member function `fqwb_input_method::clear_input`. -/
def clear_input (s : fqwb_input_method) : fqwb_input_method :=
  { s with current_code := [], current_candidates := [], current_page := 0 }

/-- Member function `fqwb_input_method::select_candidate`: the returned text and the new
state. -/
def select_candidate (s : fqwb_input_method) (index : Int) :
    wstring × fqwb_input_method :=
  if 0 ≤ index ∧ index < (s.current_candidates.length : Int) then
    let selected := s.current_candidates.getD index.toNat []
    (selected, clear_input s)
  else ([], s)

/-- What a call of `process_key_input` gives back: its `bool` return value,
the value stored through `handled`, and the new object state. The function has
no other output. -/
structure key_result where
  ret : Bool
  handled : Bool
  state : fqwb_input_method
  deriving DecidableEq

/-- Member function `fqwb_input_method::process_key_input`. `shift_pressed` is the value read
from `GetKeyState(VK_SHIFT)`; `lParam` is unused by the body; `handled` is a
valid pointer. -/
def process_key_input (s : fqwb_input_method) (key_code : Nat) (shift_pressed : Bool)
    (is_down : Bool) : key_result :=
  if !s.initialized then { ret := false, handled := false, state := s }
  else if is_down then
    if 65 ≤ key_code ∧ key_code ≤ 90 then
      let s1 := { s with current_code := s.current_code ++ [key_code] }
      let s2 := { s1 with current_candidates := search_code s1.dict_manager s1.current_code }
      if s2.auto_commit ∧ s2.current_code.length = MAX_CODE_LENGTH ∧ s2.current_candidates ≠ [] then
        { ret := true, handled := true, state := (select_candidate s2 0).2 }
      else { ret := true, handled := true, state := s2 }
    else if 49 ≤ key_code ∧ key_code ≤ 57 then
      let index : Int := (key_code : Int) - 49
      let index := if s.shift_select ∧ shift_pressed then index + 9 else index
      if index < (s.current_candidates.length : Int) then
        { ret := true, handled := true, state := (select_candidate s index).2 }
      else { ret := true, handled := true, state := s }
    else if key_code = VK_BACK then
      if s.current_code ≠ [] then
        let s1 := { s with current_code := s.current_code.dropLast }
        if s1.current_code ≠ [] then
          { ret := true, handled := true,
            state := { s1 with current_candidates := search_code s1.dict_manager s1.current_code } }
        else { ret := true, handled := true, state := { s1 with current_candidates := [] } }
      else { ret := true, handled := true, state := s }
    else if key_code = VK_ESCAPE then
      { ret := true, handled := true, state := clear_input s }
    else if key_code = VK_NEXT then
      if s.current_candidates ≠ [] then { ret := true, handled := true, state := next_page s }
      else { ret := true, handled := true, state := s }
    else if key_code = VK_PRIOR then
      if s.current_candidates ≠ [] then { ret := true, handled := true, state := prev_page s }
      else { ret := true, handled := true, state := s }
    else if key_code = VK_RETURN then
      if s.current_candidates ≠ [] then
        { ret := true, handled := true, state := (select_candidate s 0).2 }
      else { ret := true, handled := true, state := s }
    else if key_code = VK_SPACE then
      if s.current_candidates ≠ [] then
        { ret := true, handled := true, state := (select_candidate s 0).2 }
      else { ret := true, handled := true, state := s }
    else { ret := true, handled := false, state := s }
  else { ret := true, handled := false, state := s }

/-- Member function `fqwb_input_method::add_user_word`. -/
def add_user_word (s : fqwb_input_method) (code characters : wstring) :
    Bool × fqwb_input_method :=
  if !s.initialized then (false, s)
  else
    let r := add_word s.dict_manager code characters
    (r.1, { s with dict_manager := r.2 })

/-- A key-down delivered by the host (`OnKeyDown`), as a state transformer. -/
def key_down (s : fqwb_input_method) (key_code : Nat) (shift_pressed : Bool) :
    fqwb_input_method :=
  (process_key_input s key_code shift_pressed true).state

/-- A sequence of key-downs without the shift modifier. -/
def type_keys (s : fqwb_input_method) (keys : List Nat) : fqwb_input_method :=
  keys.foldl (fun t k => key_down t k false) s

/-! ## Derived notions: accepted lines, parsed files, key events -/

/-- The white-space removal of `load_dictionary`:
`s.erase(std::remove_if(s.begin(), s.end(), ::iswspace), s.end())`. -/
def strip_space (s : wstring) : wstring := s.filter (fun c => !iswspace c)

/-- The entry `(code, characters)` that the loop body of `load_dictionary`
pushes for a line, `none` when the body skips the line (same tests as
`load_line`). -/
def line_entry (line : wstring) : Option (wstring × wstring) :=
  if line = [] then none
  else
    match find_space line with
    | none => none
    | some pos =>
      if 0 < pos ∧ pos < line.length - 1 then
        if strip_space (line.take pos) ≠ [] ∧ strip_space (line.drop (pos + 1)) ≠ [] then
          some (strip_space (line.take pos), strip_space (line.drop (pos + 1)))
        else none
      else none

/-- The dictionary that the `load_dictionary` call of `initialize` registers
for a directory entry: `none` for a directory, a file that cannot be opened,
or a file without any accepted line (the call returns `false`). -/
def entry_dictionary (e : dir_entry) : Option dictionary :=
  if e.is_directory then none
  else
    match e.file with
    | none => none
    | some lines => if load_lines lines ≠ [] then some (load_lines lines) else none

/-- The successfully parsed files of an enumeration, in enumeration order,
each with its dictionary name (the base name of the file). -/
def parsed_files (entries : List dir_entry) : List (wstring × dictionary) :=
  entries.filterMap
    (fun e => (entry_dictionary e).map (fun d => (dict_name_of e.cFileName, d)))

/-- A key event delivered by the host (`OnKeyDown` / `OnKeyUp`), with the
state of the shift key at that moment. -/
structure key_event where
  key_code : Nat
  shift_pressed : Bool
  is_down : Bool
  deriving DecidableEq

/-- The state after a sequence of key events. -/
def handle_events (s : fqwb_input_method) (events : List key_event) : fqwb_input_method :=
  events.foldl
    (fun t e => (process_key_input t e.key_code e.shift_pressed e.is_down).state) s

/-- The bookkeeping of the enumeration loop of `initialize`: the store `s`
holds exactly the parsed files `ps` seen so far (each registered under its
name), and the first of them, if any, is the active dictionary. -/
def store_tracks (s : dictionary_manager) (ps : List (wstring × dictionary)) : Prop :=
  s.initialized = true ∧
  s.dictionaries.length = ps.length ∧
  (∀ q ∈ ps, map_find s.dictionaries q.1 = some q.2) ∧
  (∀ n, n ∉ ps.map Prod.fst → map_find s.dictionaries n = none) ∧
  (∀ p, ps.head? = some p → s.current_dict_name = p.1 ∧ s.dict = p.2) ∧
  (ps = [] → s.current_dict_name = L_default ∧ s.dict = [])

/-- What the key handler keeps true of the code buffer while auto-commit is
on: only letter key codes, and more than three of them only when the first
four have no candidates in the active dictionary. -/
def code_invariant (s : fqwb_input_method) : Prop :=
  s.auto_commit = true ∧
  (∀ c ∈ s.current_code, 65 ≤ c ∧ c ≤ 90) ∧
  (s.current_code.length ≤ 3 ∨
    search_code s.dict_manager (s.current_code.take 4) = [])

/-- The cache relation between code buffer and candidate list: no candidates
for an empty code, the lookup of the code otherwise. -/
def candidates_cached (s : fqwb_input_method) : Prop :=
  (s.current_code = [] → s.current_candidates = []) ∧
  (s.current_code ≠ [] →
    s.current_candidates = search_code s.dict_manager s.current_code)

/-- A call of one of the four state-changing member functions of
`dictionary_manager`: `initialize`, `load_dictionary`, `add_word`,
`switch_dictionary`, with its arguments. -/
inductive store_call where
  | init (dir_path : wstring) (entries : List dir_entry)
  | load (dict_name : wstring) (file : Option (List wstring))
  | add (code characters : wstring)
  | switch (dict_name : wstring)
  deriving DecidableEq

/-- The store after a call. -/
def apply_call (s : dictionary_manager) : store_call → dictionary_manager
  | store_call.init dir_path entries => (initialize_dictionary_manager s dir_path entries).2
  | store_call.load dict_name file => (load_dictionary s dict_name file).2
  | store_call.add code characters => (add_word s code characters).2
  | store_call.switch dict_name => (switch_dictionary s dict_name).2

/-- The store after a sequence of calls. -/
def run_calls (s : dictionary_manager) (calls : List store_call) : dictionary_manager :=
  calls.foldl apply_call s

/-- The active snapshot equals the dictionary stored under the active name,
an unregistered active name counting as the empty dictionary. -/
def mirrored (s : dictionary_manager) : Prop :=
  s.dict = (map_find s.dictionaries s.current_dict_name).getD []

/-- One step of the enumeration of `initialize` does not load a dictionary
under the name that is active at that moment, unless the load leaves exactly
one registered dictionary (the loop then switches to it). -/
def entry_keeps_mirror (s : dictionary_manager) (e : dir_entry) : Bool :=
  (entry_dictionary e).isNone ||
  decide (dict_name_of e.cFileName ≠ s.current_dict_name) ||
  decide ((initialize_entry s e).dictionaries.length = 1)

/-- Every step of the enumeration of `initialize`, started in `s`, satisfies
`entry_keeps_mirror`. -/
def entries_keep_mirror : dictionary_manager → List dir_entry → Bool
  | _, [] => true
  | s, e :: rest => entry_keeps_mirror s e && entries_keep_mirror (initialize_entry s e) rest

/-- A call that does not separate the active snapshot from its stored copy:
no `add_word` on an initialized store whose active name is empty, and no
successful load under the active name (see `entry_keeps_mirror` for the loads
made by `initialize`). -/
def call_keeps_mirror (s : dictionary_manager) : store_call → Bool
  | store_call.init dir_path entries =>
    entries_keep_mirror { s with data_dir := dir_path, initialized := true } entries
  | store_call.load dict_name file =>
    decide (dict_name ≠ s.current_dict_name) || !(load_dictionary s dict_name file).1
  | store_call.add _ _ => decide (s.current_dict_name ≠ []) || !s.initialized
  | store_call.switch _ => true

/-- Every call of the sequence, started in `s`, satisfies `call_keeps_mirror`
in the state in which it is made. -/
def calls_keep_mirror : dictionary_manager → List store_call → Bool
  | _, [] => true
  | s, c :: rest => call_keeps_mirror s c && calls_keep_mirror (apply_call s c) rest

/-! ## Concrete data used by the examples -/

/-- The text "测试". -/
def text_ceshi : wstring := [0x6D4B, 0x8BD5]

/-- The code "ABC". -/
def code_ABC : wstring := [65, 66, 67]

/-- A store initialised on an empty directory, in which the dictionary file
with the single line "A x" is then loaded under the empty name and made
active. -/
def store_empty_name : dictionary_manager :=
  let s0 := (initialize_dictionary_manager dictionary_manager.new [68] []).2
  let s1 := (load_dictionary s0 [] (some [[65, 32, 120]])).2
  (switch_dictionary s1 []).2

/-- A store initialised on an empty directory (built-in dictionary active
under the name "default"), in which the dictionary file with the single line
"A x" is then loaded under the name "m". -/
def store_two : dictionary_manager :=
  let s0 := (initialize_dictionary_manager dictionary_manager.new [68] []).2
  (load_dictionary s0 [109] (some [[65, 32, 120]])).2

/-- An engine initialised on a directory holding the one dictionary file
"w.dic" with the given lines. -/
def engine_of_lines (lines : List wstring) : fqwb_input_method :=
  (initialize_input_method fqwb_input_method.new [68]
    [{ cFileName := [119, 46, 100, 105, 99], is_directory := false, file := some lines }]).2

/-- The dictionary "ABC" -> ["测试"]. -/
def engine_abc : fqwb_input_method :=
  engine_of_lines [[65, 66, 67, 32, 0x6D4B, 0x8BD5]]

/-- The dictionary "A" -> ["x"], "B" -> ["y"]. -/
def engine_xy : fqwb_input_method :=
  engine_of_lines [[65, 32, 120], [66, 32, 121]]

/-- The dictionary "ABCD" -> ["x"]. -/
def engine_abcd : fqwb_input_method :=
  engine_of_lines [[65, 66, 67, 68, 32, 120]]

/-- The dictionary "A" -> ["a", ..., "j"] (ten candidates). -/
def engine_ten : fqwb_input_method :=
  engine_of_lines ((List.range 10).map (fun i => [65, 32, 97 + i]))

/-- The dictionary "A" -> ["a", ..., "n"] (fourteen candidates),
"AB" -> ["z"]. -/
def engine_many : fqwb_input_method :=
  engine_of_lines (((List.range 14).map (fun i => [65, 32, 97 + i])) ++ [[65, 66, 32, 122]])

/-- An enumeration in which nothing parses: the directory "d.dic", the file
"u.dic" that cannot be opened, and the file "w.dic" whose lines are an empty
line, "ABC", " A" and "A ". -/
def entries_unparsed : List dir_entry :=
  [{ cFileName := [100, 46, 100, 105, 99], is_directory := true, file := none },
   { cFileName := [117, 46, 100, 105, 99], is_directory := false, file := none },
   { cFileName := [119, 46, 100, 105, 99], is_directory := false,
     file := some [[], [65, 66, 67], [32, 65], [65, 32]] }]

/-- An enumeration with the directory "d.dic", the unreadable file "u.dic",
and the files "w.dic" (line "A x") and "v.dic" (line "B y"). -/
def entries_two_files : List dir_entry :=
  [{ cFileName := [100, 46, 100, 105, 99], is_directory := true, file := none },
   { cFileName := [117, 46, 100, 105, 99], is_directory := false, file := none },
   { cFileName := [119, 46, 100, 105, 99], is_directory := false,
     file := some [[65, 32, 120]] },
   { cFileName := [118, 46, 100, 105, 99], is_directory := false,
     file := some [[66, 32, 121]] }]

/-- An enumeration of two files with the same base name "w": "w.dic" (line
"A x") and "w.dict" (line "B y"); `FindFirstFileW` matches `*.dic` against
the short 8.3 name of the second file as well. -/
def entries_same_base : List dir_entry :=
  [{ cFileName := [119, 46, 100, 105, 99], is_directory := false,
     file := some [[65, 32, 120]] },
   { cFileName := [119, 46, 100, 105, 99, 116], is_directory := false,
     file := some [[66, 32, 121]] }]

/-- The lines "A x", "B y", "bad", "A z", "A x" of a dictionary file. -/
def lines_repeated : List wstring :=
  [[65, 32, 120], [66, 32, 121], [98, 97, 100], [65, 32, 122], [65, 32, 120]]

/-- Key-downs of A, B, C, D, E without shift. -/
def events_ABCDE : List key_event :=
  [⟨65, false, true⟩, ⟨66, false, true⟩, ⟨67, false, true⟩, ⟨68, false, true⟩,
   ⟨69, false, true⟩]

/-- Key-downs of A, B, C without shift. -/
def events_ABC : List key_event :=
  [⟨65, false, true⟩, ⟨66, false, true⟩, ⟨67, false, true⟩]

/-- The calls `initialize` on an empty directory, then `load_dictionary` of
the file "A x" under the active name "default". -/
def calls_reload_active : List store_call :=
  [store_call.init [68] [], store_call.load L_default (some [[65, 32, 120]])]

/-- The calls `initialize` on an empty directory, `load_dictionary` of the
file "A x" under the empty name, `switch_dictionary` to the empty name, and
`add_word "B" "y"`. -/
def calls_add_empty_name : List store_call :=
  [store_call.init [68] [], store_call.load [] (some [[65, 32, 120]]), store_call.switch [],
   store_call.add [66] [121]]

/-- The call `initialize` on the enumeration "w.dic" ("A x"), "v.dic"
("B y"), "w.dict" ("C z"). -/
def calls_init_three : List store_call :=
  [store_call.init [68]
    [{ cFileName := [119, 46, 100, 105, 99], is_directory := false,
       file := some [[65, 32, 120]] },
     { cFileName := [118, 46, 100, 105, 99], is_directory := false,
       file := some [[66, 32, 121]] },
     { cFileName := [119, 46, 100, 105, 99, 116], is_directory := false,
       file := some [[67, 32, 122]] }]]

/-- The calls `initialize` on the files "w.dic" and "v.dic", `add_word "C"
"z"`, `load_dictionary` of "A x" under "m", `switch_dictionary "v"`,
`add_word "D" "w"`, `switch_dictionary "w"`. -/
def calls_mirrored : List store_call :=
  [store_call.init [68] entries_two_files, store_call.add [67] [122],
   store_call.load [109] (some [[65, 32, 120]]), store_call.switch [118],
   store_call.add [68] [119], store_call.switch [119]]

/-! ## Maps -/

theorem map_find_set_same {V : Type} (m : wmap V) (k : wstring) (v : V) :
    map_find (map_set m k v) k = some v := by
  induction m with
  | nil => simp [map_set, map_find]
  | cons e rest ih =>
    obtain ⟨k0, w⟩ := e
    by_cases h : k0 = k
    · simp [map_set, map_find, h]
    · by_cases hlt : wstring_lt k k0 = true
      · simp [map_set, map_find, h, hlt]
      · simp [map_set, map_find, h, hlt, ih]

theorem map_find_set_other {V : Type} (m : wmap V) (k k2 : wstring) (v : V)
    (hne : k2 ≠ k) : map_find (map_set m k v) k2 = map_find m k2 := by
  induction m with
  | nil => simp [map_set, map_find, Ne.symm hne]
  | cons e rest ih =>
    obtain ⟨k0, w⟩ := e
    by_cases h : k0 = k
    · subst h
      simp [map_set, map_find, Ne.symm hne]
    · by_cases hlt : wstring_lt k k0 = true
      · simp [map_set, map_find, h, hlt, Ne.symm hne]
      · by_cases h2 : k0 = k2
        · subst h2
          simp [map_set, map_find, h, hlt]
        · simp [map_set, map_find, h, hlt, h2, ih]

theorem map_find_eq_none_iff {V : Type} (m : wmap V) (k : wstring) :
    map_find m k = none ↔ k ∉ map_keys m := by
  induction m with
  | nil => simp [map_find, map_keys]
  | cons e rest ih =>
    obtain ⟨k0, w⟩ := e
    by_cases h : k0 = k
    · simp [map_find, map_keys, h]
    · have h2 : ¬ k = k0 := fun hh => h hh.symm
      simp only [map_keys] at ih
      simp [map_find, map_keys, h, h2, ih]

theorem map_find_mem {V : Type} (m : wmap V) (k : wstring) (v : V)
    (h : map_find m k = some v) : (k, v) ∈ m := by
  induction m with
  | nil => simp [map_find] at h
  | cons e rest ih =>
    obtain ⟨k0, w⟩ := e
    by_cases hk : k0 = k
    · simp [map_find, hk] at h
      simp [hk, h]
    · simp [map_find, hk] at h
      exact List.mem_cons_of_mem _ (ih h)

theorem dict_push_find_same (d : dictionary) (code text : wstring) :
    map_find (dict_push d code text) code = some ((map_find d code).getD [] ++ [text]) := by
  simp [dict_push, map_find_set_same]

/-! ## The dictionary store -/

theorem search_code_of_initialized (s : dictionary_manager) (code : wstring)
    (h : s.initialized = true) :
    search_code s code = (map_find s.dict code).getD [] := by
  unfold search_code
  cases hf : map_find s.dict code <;> simp [h]

theorem add_word_snd_dict (s : dictionary_manager) (code text : wstring)
    (hinit : s.initialized = true) :
    (add_word s code text).2.dict = dict_push s.dict code text := by
  by_cases hn : s.current_dict_name = [] <;> simp [add_word, hinit, hn]

theorem add_word_snd_initialized (s : dictionary_manager) (code text : wstring)
    (hinit : s.initialized = true) :
    (add_word s code text).2.initialized = true := by
  by_cases hn : s.current_dict_name = [] <;> simp [add_word, hinit, hn]

theorem add_word_snd_dictionaries (s : dictionary_manager) (code text : wstring)
    (hinit : s.initialized = true) (hn : s.current_dict_name ≠ []) :
    (add_word s code text).2.dictionaries =
      map_set s.dictionaries s.current_dict_name
        (dict_push ((map_find s.dictionaries s.current_dict_name).getD []) code text) := by
  simp [add_word, hinit, hn]

theorem switch_dictionary_of_find (s : dictionary_manager) (name : wstring) (d : dictionary)
    (hinit : s.initialized = true) (h : map_find s.dictionaries name = some d) :
    switch_dictionary s name = (true, { s with current_dict_name := name, dict := d }) := by
  simp [switch_dictionary, hinit, h]

/-- Claim C1 (amended). On an initialized store, after `add_word code text` the
lookup of `code` is non-empty and ends with `text`; and when the active
dictionary name is not the empty string, for every other registered name `m`
both switches succeed and the lookup of `code` still ends with `text` after
switching to `m` and back to the name that was active at the `add_word`. -/
theorem add_word_search_code_last (s : dictionary_manager) (code text : wstring)
    (hinit : s.initialized = true) :
    (add_word s code text).1 = true ∧
    search_code (add_word s code text).2 code ≠ [] ∧
    (search_code (add_word s code text).2 code).getLast? = some text ∧
    (s.current_dict_name ≠ [] → ∀ m, m ≠ s.current_dict_name →
      map_find s.dictionaries m ≠ none →
      (switch_dictionary (add_word s code text).2 m).1 = true ∧
      (switch_dictionary (switch_dictionary (add_word s code text).2 m).2
        s.current_dict_name).1 = true ∧
      search_code (switch_dictionary (switch_dictionary (add_word s code text).2 m).2
        s.current_dict_name).2 code ≠ [] ∧
      (search_code (switch_dictionary (switch_dictionary (add_word s code text).2 m).2
        s.current_dict_name).2 code).getLast? = some text) := by
  have hadd1 : (add_word s code text).1 = true := by simp [add_word, hinit]
  have hadd_init := add_word_snd_initialized s code text hinit
  have hadd_dict := add_word_snd_dict s code text hinit
  have hsearch : search_code (add_word s code text).2 code
      = (map_find s.dict code).getD [] ++ [text] := by
    rw [search_code_of_initialized _ _ hadd_init, hadd_dict, dict_push_find_same]; rfl
  refine ⟨hadd1, ?_, ?_, ?_⟩
  · rw [hsearch]; simp
  · rw [hsearch]; simp
  · intro hname m hm hreg
    have hds := add_word_snd_dictionaries s code text hinit hname
    cases hdm : map_find s.dictionaries m with
    | none => exact absurd hdm hreg
    | some dm =>
      have hfm : map_find (add_word s code text).2.dictionaries m = some dm := by
        rw [hds, map_find_set_other _ _ _ _ hm, hdm]
      have hsw1 := switch_dictionary_of_find _ m dm hadd_init hfm
      have hfn : map_find (switch_dictionary (add_word s code text).2 m).2.dictionaries
          s.current_dict_name = some
            (dict_push ((map_find s.dictionaries s.current_dict_name).getD []) code text) := by
        rw [hsw1]; simp only []
        rw [hds, map_find_set_same]
      have hinit2 : (switch_dictionary (add_word s code text).2 m).2.initialized = true := by
        rw [hsw1]; exact hadd_init
      have hsw2 := switch_dictionary_of_find _ s.current_dict_name _ hinit2 hfn
      have hsearch2 : search_code (switch_dictionary (switch_dictionary
          (add_word s code text).2 m).2 s.current_dict_name).2 code =
          (map_find ((map_find s.dictionaries s.current_dict_name).getD []) code).getD []
            ++ [text] := by
        rw [hsw2, search_code_of_initialized _ _ (by simpa using hinit2)]
        simp only []
        rw [dict_push_find_same]; rfl
      refine ⟨by rw [hsw1], by rw [hsw2], ?_, ?_⟩
      · rw [hsearch2]; simp
      · rw [hsearch2]; simp

/-- Witness for C1 (amended): the store with the built-in dictionary active
under "default" and a second dictionary "m"; the word "ABC" -> "测试" survives
switching to "m" and back. -/
theorem add_word_search_code_last_witness :
    store_two.initialized = true ∧ store_two.current_dict_name ≠ [] ∧
    ([109] : wstring) ≠ store_two.current_dict_name ∧
    map_find store_two.dictionaries [109] ≠ none ∧
    (search_code (add_word store_two code_ABC text_ceshi).2 code_ABC).getLast?
      = some text_ceshi ∧
    (search_code (switch_dictionary (switch_dictionary
        (add_word store_two code_ABC text_ceshi).2 [109]).2
        store_two.current_dict_name).2 code_ABC).getLast? = some text_ceshi :=
  ⟨by decide, by decide, by decide, by decide,
    (add_word_search_code_last store_two code_ABC text_ceshi (by decide)).2.2.1,
    ((add_word_search_code_last store_two code_ABC text_ceshi (by decide)).2.2.2
      (by decide) [109] (by decide) (by decide)).2.2.2⟩

/-- Counterexample to C1 as stated: in the initialized store whose active
dictionary is registered under the empty name, with "default" as another
registered name, after `add_word "B" "y"` the lookup of "B" gives ["y"], but
after switching to "default" and back (both switches succeed) it is empty. -/
theorem add_word_lost_with_empty_name :
    store_empty_name.initialized = true ∧
    store_empty_name.current_dict_name = [] ∧
    L_default ≠ store_empty_name.current_dict_name ∧
    map_find store_empty_name.dictionaries L_default ≠ none ∧
    search_code (add_word store_empty_name [66] [121]).2 [66] = [[121]] ∧
    (switch_dictionary (add_word store_empty_name [66] [121]).2 L_default).1 = true ∧
    (switch_dictionary (switch_dictionary (add_word store_empty_name [66] [121]).2
      L_default).2 store_empty_name.current_dict_name).1 = true ∧
    search_code (switch_dictionary (switch_dictionary
      (add_word store_empty_name [66] [121]).2 L_default).2
      store_empty_name.current_dict_name).2 [66] = [] := by
  decide

/-- Claim C2. On an initialized store `search_code c` is the exact-match lookup
of `c` in the active snapshot: when `c` is a key, the result is the candidate
list stored under `c` (an entry `(c, l)` of the snapshot), and when `c` is not
a key the result is empty. -/
theorem search_code_exact_match (s : dictionary_manager) (c : wstring)
    (hinit : s.initialized = true) :
    (∀ l, map_find s.dict c = some l → search_code s c = l) ∧
    (c ∈ map_keys s.dict →
      ∃ l, map_find s.dict c = some l ∧ (c, l) ∈ s.dict ∧ search_code s c = l) ∧
    (c ∉ map_keys s.dict → search_code s c = []) := by
  have hs := search_code_of_initialized s c hinit
  refine ⟨?_, ?_, ?_⟩
  · intro l hl
    rw [hs, hl]; rfl
  · intro hmem
    cases hf : map_find s.dict c with
    | none => exact absurd hmem ((map_find_eq_none_iff _ _).mp hf)
    | some l => exact ⟨l, rfl, map_find_mem _ _ _ hf, by rw [hs, hf]; rfl⟩
  · intro hnot
    rw [hs, (map_find_eq_none_iff _ _).mpr hnot]; rfl

/-- Witness for C2: with the dictionary "ABC" -> ["测试"], the key "ABC" gives
its list, while its proper prefix "AB" and its extension "ABCD" give nothing. -/
theorem search_code_exact_match_witness :
    engine_abc.dict_manager.initialized = true ∧
    code_ABC ∈ map_keys engine_abc.dict_manager.dict ∧
    (∃ l, map_find engine_abc.dict_manager.dict code_ABC = some l ∧
      (code_ABC, l) ∈ engine_abc.dict_manager.dict ∧
      search_code engine_abc.dict_manager code_ABC = l) ∧
    search_code engine_abc.dict_manager code_ABC = [text_ceshi] ∧
    search_code engine_abc.dict_manager [65, 66] = [] ∧
    search_code engine_abc.dict_manager [65, 66, 67, 68] = [] :=
  ⟨by decide, by decide,
    (search_code_exact_match engine_abc.dict_manager code_ABC (by decide)).2.1 (by decide),
    (search_code_exact_match engine_abc.dict_manager code_ABC (by decide)).1 _ (by decide),
    (search_code_exact_match engine_abc.dict_manager [65, 66] (by decide)).2.2 (by decide),
    (search_code_exact_match engine_abc.dict_manager [65, 66, 67, 68] (by decide)).2.2
      (by decide)⟩

/-! ## The composition engine: selection -/

theorem select_candidate_in_range (s : fqwb_input_method) (i : Int) (h0 : 0 ≤ i)
    (h1 : i < (s.current_candidates.length : Int)) :
    s.current_candidates[i.toNat]? = some (select_candidate s i).1 ∧
    (select_candidate s i).2 =
      { s with current_code := [], current_candidates := [], current_page := 0 } := by
  have hlt : i.toNat < s.current_candidates.length := by omega
  simp [select_candidate, h0, h1, clear_input, List.getD_eq_getElem _ _ hlt,
    List.getElem?_eq_getElem hlt]

/-- Claim C3. For an index `i` with `0 <= i < candidateCount`,
`select_candidate i` returns the `i`-th candidate of the list before the call,
and the new state is the old one with empty code, empty candidate list and
page 0 (page size, flags and store unchanged). -/
theorem select_candidate_valid (s : fqwb_input_method) (i : Int) (h0 : 0 ≤ i)
    (h1 : i < (s.current_candidates.length : Int)) :
    s.current_candidates[i.toNat]? = some (select_candidate s i).1 ∧
    (select_candidate s i).2 =
      { s with current_code := [], current_candidates := [], current_page := 0 } ∧
    (select_candidate s i).2.current_code = fqwb_input_method.new.current_code ∧
    (select_candidate s i).2.current_candidates = fqwb_input_method.new.current_candidates ∧
    (select_candidate s i).2.current_page = fqwb_input_method.new.current_page := by
  obtain ⟨hget, hstate⟩ := select_candidate_in_range s i h0 h1
  refine ⟨hget, hstate, ?_, ?_, ?_⟩ <;> rw [hstate] <;> rfl

/-- Witness for C3: with fourteen candidates "a".."n" on screen, index 13
returns "n" and resets the composition. -/
theorem select_candidate_valid_witness :
    (type_keys engine_many [65]).current_candidates.length = 14 ∧
    (select_candidate (type_keys engine_many [65]) 13).1 = [110] ∧
    (type_keys engine_many [65]).current_candidates[(13 : Int).toNat]?
      = some (select_candidate (type_keys engine_many [65]) 13).1 ∧
    (select_candidate (type_keys engine_many [65]) 13).2 = engine_many :=
  ⟨by decide, by decide,
    (select_candidate_valid (type_keys engine_many [65]) 13 (by decide) (by decide)).1,
    (select_candidate_valid (type_keys engine_many [65]) 13 (by decide) (by decide)).2.1.trans
      (by decide)⟩

/-- Claim C4. For an index `i` with `i < 0` or `i >= candidateCount`,
`select_candidate i` returns the empty string and leaves the whole state
unchanged. -/
theorem select_candidate_invalid (s : fqwb_input_method) (i : Int)
    (h : i < 0 ∨ (s.current_candidates.length : Int) ≤ i) :
    select_candidate s i = ([], s) := by
  have hcond : ¬ (0 ≤ i ∧ i < (s.current_candidates.length : Int)) := by omega
  simp [select_candidate, hcond]

/-- Witness for C4: with fourteen candidates on screen, the indices 14 and -1
select nothing. -/
theorem select_candidate_invalid_witness :
    (type_keys engine_many [65]).current_candidates.length = 14 ∧
    select_candidate (type_keys engine_many [65]) 14 = ([], type_keys engine_many [65]) ∧
    select_candidate (type_keys engine_many [65]) (-1) = ([], type_keys engine_many [65]) :=
  ⟨by decide,
    select_candidate_invalid (type_keys engine_many [65]) 14 (Or.inr (by decide)),
    select_candidate_invalid (type_keys engine_many [65]) (-1) (Or.inl (by decide))⟩

/-! ## The composition engine: key handling -/

/-- Claim C5 (amended). On an initialized engine with a non-empty candidate
list, an Enter or Space key-down is reported handled and resets the state to
idle exactly as `select_candidate 0` does; the result of the key handler is
only its return value, the handled flag and that state, so the text of
candidate 0 (the value `select_candidate 0` returns) is not part of it. -/
theorem enter_space_commit (s : fqwb_input_method) (key : Nat) (shift : Bool)
    (hinit : s.initialized = true) (hc : s.current_candidates ≠ [])
    (hkey : key = VK_RETURN ∨ key = VK_SPACE) :
    process_key_input s key shift true =
      { ret := true, handled := true,
        state := { s with current_code := [], current_candidates := [], current_page := 0 } } ∧
    (process_key_input s key shift true).state = (select_candidate s 0).2 ∧
    s.current_candidates.head? = some (select_candidate s 0).1 := by
  have hlen : (0 : Int) < (s.current_candidates.length : Int) := by
    exact_mod_cast List.length_pos.mpr hc
  have hsel := select_candidate_in_range s 0 le_rfl hlen
  have hhead : s.current_candidates.head? = some (select_candidate s 0).1 := by
    rw [← hsel.1]; cases s.current_candidates <;> simp
  rcases hkey with rfl | rfl
  · simp [process_key_input, hinit, hc, VK_RETURN, VK_BACK, VK_ESCAPE, VK_NEXT, VK_PRIOR,
      hsel.2, hhead]
  · simp [process_key_input, hinit, hc, VK_RETURN, VK_BACK, VK_ESCAPE, VK_NEXT, VK_PRIOR,
      VK_SPACE, hsel.2, hhead]

/-- Witness for C5 (amended): dictionary "ABC" -> ["测试"]; after typing A, B,
C the code is "ABC" with the candidate "测试", and Enter gives back `true`,
handled, and the idle state with an empty code. -/
theorem enter_space_commit_witness :
    (type_keys engine_abc code_ABC).initialized = true ∧
    (type_keys engine_abc code_ABC).current_code = code_ABC ∧
    (type_keys engine_abc code_ABC).current_candidates = [text_ceshi] ∧
    process_key_input (type_keys engine_abc code_ABC) VK_RETURN false true =
      { ret := true, handled := true, state := engine_abc } ∧
    engine_abc.current_code = [] :=
  ⟨by decide, by decide, by decide,
    (enter_space_commit (type_keys engine_abc code_ABC) VK_RETURN false (by decide)
      (by decide) (Or.inl rfl)).1.trans (by decide),
    by decide⟩

/-- Counterexample to C5 as stated: with the dictionary "A" -> ["x"],
"B" -> ["y"], Enter after typing A and Enter after typing B commit different
texts ("x" and "y"), yet everything the key handler gives back to its caller
is the same in both cases. Hence no committed text can be read off the result
of the key handler: the text of candidate 0 is not returned. -/
theorem enter_result_independent_of_text :
    ((type_keys engine_xy [65]).initialized = true ∧
     (type_keys engine_xy [66]).initialized = true ∧
     (type_keys engine_xy [65]).current_candidates = [[120]] ∧
     (type_keys engine_xy [66]).current_candidates = [[121]] ∧
     (select_candidate (type_keys engine_xy [65]) 0).1 = [120] ∧
     (select_candidate (type_keys engine_xy [66]) 0).1 = [121] ∧
     process_key_input (type_keys engine_xy [65]) VK_RETURN false true =
       process_key_input (type_keys engine_xy [66]) VK_RETURN false true ∧
     process_key_input (type_keys engine_xy [65]) VK_SPACE false true =
       process_key_input (type_keys engine_xy [66]) VK_SPACE false true) ∧
    ¬ ∃ committed : key_result → wstring,
        ∀ s : fqwb_input_method, s.initialized = true → s.current_candidates ≠ [] →
          committed (process_key_input s VK_RETURN false true) = (select_candidate s 0).1 :=
  ⟨by decide, fun ⟨committed, h⟩ =>
    absurd
      ((h (type_keys engine_xy [65]) (by decide) (by decide)).symm.trans
        ((congrArg committed (by decide)).trans
          (h (type_keys engine_xy [66]) (by decide) (by decide))))
      (by decide)⟩

theorem letter_key_step (s : fqwb_input_method) (k : Nat) (shift : Bool)
    (hinit : s.initialized = true) (hk1 : 65 ≤ k) (hk2 : k ≤ 90) :
    process_key_input s k shift true =
      if s.auto_commit = true ∧ (s.current_code ++ [k]).length = MAX_CODE_LENGTH ∧
          search_code s.dict_manager (s.current_code ++ [k]) ≠ [] then
        { ret := true, handled := true,
          state := { s with current_code := [], current_candidates := [], current_page := 0 } }
      else
        { ret := true, handled := true,
          state := { s with current_code := s.current_code ++ [k],
                            current_candidates :=
                              search_code s.dict_manager (s.current_code ++ [k]) } } := by
  simp only [process_key_input, hinit, hk1, hk2]
  simp only [Bool.not_true, Bool.false_eq_true, if_false, if_true, and_self]
  split_ifs with h
  · obtain ⟨_, _, h3⟩ := h
    have hlen : (0 : Int) <
        ((search_code s.dict_manager (s.current_code ++ [k])).length : Int) := by
      exact_mod_cast List.length_pos.mpr h3
    simp [select_candidate, hlen, clear_input]
  · rfl

/-- Claim C6. On an initialized engine whose code has 3 letters, a letter
key-down for which the lookup of the resulting 4-letter code is non-empty
gives: with auto-commit on, the idle state (empty code, empty candidates, page
0); with auto-commit off, the 4-letter code with the lookup result as
candidates and nothing else changed, and a further letter key-down appends a
fifth letter. -/
theorem fourth_letter (s : fqwb_input_method) (k : Nat) (shift : Bool)
    (hinit : s.initialized = true) (hlen : s.current_code.length = 3)
    (hk1 : 65 ≤ k) (hk2 : k ≤ 90)
    (hfound : search_code s.dict_manager (s.current_code ++ [k]) ≠ []) :
    (s.auto_commit = true →
      process_key_input s k shift true =
        { ret := true, handled := true,
          state := { s with current_code := [], current_candidates := [],
                            current_page := 0 } }) ∧
    (s.auto_commit = false →
      process_key_input s k shift true =
        { ret := true, handled := true,
          state := { s with current_code := s.current_code ++ [k],
                            current_candidates :=
                              search_code s.dict_manager (s.current_code ++ [k]) } } ∧
      ∀ (k2 : Nat) (shift2 : Bool), 65 ≤ k2 → k2 ≤ 90 →
        (process_key_input (process_key_input s k shift true).state k2 shift2
          true).state.current_code = s.current_code ++ [k] ++ [k2]) := by
  have hstep := letter_key_step s k shift hinit hk1 hk2
  have hlen4 : (s.current_code ++ [k]).length = MAX_CODE_LENGTH := by
    simp [hlen, MAX_CODE_LENGTH]
  constructor
  · intro hac
    rw [hstep, if_pos ⟨hac, hlen4, hfound⟩]
  · intro hac
    have hres : process_key_input s k shift true =
        { ret := true, handled := true,
          state := { s with current_code := s.current_code ++ [k],
                            current_candidates :=
                              search_code s.dict_manager (s.current_code ++ [k]) } } := by
      rw [hstep, if_neg (by simp [hac])]
    refine ⟨hres, ?_⟩
    intro k2 shift2 h1 h2
    rw [hres]
    rw [letter_key_step _ k2 shift2 (by simpa using hinit) h1 h2, if_neg (by simp [hac])]

/-- Witness for C6: dictionary "ABCD" -> ["x"], code "ABC", key D. With
auto-commit on the state is idle again; with auto-commit off the code is
"ABCD" with candidate "x", and a further E gives the code "ABCDE". -/
theorem fourth_letter_witness :
    (type_keys engine_abcd code_ABC).current_code.length = 3 ∧
    search_code (type_keys engine_abcd code_ABC).dict_manager (code_ABC ++ [68]) ≠ [] ∧
    (process_key_input (type_keys engine_abcd code_ABC) 68 false true).state = engine_abcd ∧
    (process_key_input (type_keys (set_auto_commit engine_abcd false) code_ABC) 68 false
      true).state.current_code = [65, 66, 67, 68] ∧
    (process_key_input (type_keys (set_auto_commit engine_abcd false) code_ABC) 68 false
      true).state.current_candidates = [[120]] ∧
    (process_key_input (process_key_input
      (type_keys (set_auto_commit engine_abcd false) code_ABC) 68 false true).state 69 false
      true).state.current_code = [65, 66, 67, 68, 69] :=
  ⟨by decide, by decide,
    (congrArg key_result.state
      ((fourth_letter (type_keys engine_abcd code_ABC) 68 false (by decide) (by decide)
        (by decide) (by decide) (by decide)).1 (by decide))).trans (by decide),
    (congrArg (fun r => r.state.current_code)
      ((fourth_letter (type_keys (set_auto_commit engine_abcd false) code_ABC) 68 false
        (by decide) (by decide) (by decide) (by decide) (by decide)).2 (by decide)).1).trans
      (by decide),
    (congrArg (fun r => r.state.current_candidates)
      ((fourth_letter (type_keys (set_auto_commit engine_abcd false) code_ABC) 68 false
        (by decide) (by decide) (by decide) (by decide) (by decide)).2 (by decide)).1).trans
      (by decide),
    (((fourth_letter (type_keys (set_auto_commit engine_abcd false) code_ABC) 68 false
        (by decide) (by decide) (by decide) (by decide) (by decide)).2 (by decide)).2 69 false
        (by decide) (by decide)).trans (by decide)⟩

theorem digit_key_step (s : fqwb_input_method) (d : Nat) (shift : Bool)
    (hinit : s.initialized = true) (hd1 : 1 ≤ d) (hd9 : d ≤ 9) :
    process_key_input s (48 + d) shift true =
      if (if s.shift_select = true ∧ shift = true then (d : Int) - 1 + 9 else (d : Int) - 1)
          < (s.current_candidates.length : Int) then
        { ret := true, handled := true,
          state := (select_candidate s
            (if s.shift_select = true ∧ shift = true then (d : Int) - 1 + 9
             else (d : Int) - 1)).2 }
      else { ret := true, handled := true, state := s } := by
  have hnl : ¬ (65 ≤ 48 + d ∧ 48 + d ≤ 90) := by omega
  have hdg : 49 ≤ 48 + d ∧ 48 + d ≤ 57 := by omega
  have hidx : ((48 + d : Nat) : Int) - 49 = (d : Int) - 1 := by push_cast; ring
  simp only [process_key_input, hinit, hnl, hdg, hidx]
  simp only [Bool.not_true, Bool.false_eq_true, if_false, if_true, and_self]

/-- Claim C7. On an initialized engine, the key-down of digit `d` (1..9) uses
the index `d - 1 + 9` when shift-select is on and the shift modifier is
active, and `d - 1` otherwise; when that index is below the candidate count
the candidate at that index is selected and the state reset to idle, and
otherwise the whole state is unchanged. -/
theorem digit_key (s : fqwb_input_method) (d : Nat) (shift : Bool) (idx : Int)
    (hinit : s.initialized = true) (hd1 : 1 ≤ d) (hd9 : d ≤ 9)
    (hidx : idx = if s.shift_select = true ∧ shift = true then (d : Int) - 1 + 9
                  else (d : Int) - 1) :
    (idx < (s.current_candidates.length : Int) →
      process_key_input s (48 + d) shift true =
        { ret := true, handled := true,
          state := { s with current_code := [], current_candidates := [],
                            current_page := 0 } } ∧
      s.current_candidates[idx.toNat]? = some (select_candidate s idx).1 ∧
      (process_key_input s (48 + d) shift true).state = (select_candidate s idx).2) ∧
    (¬ idx < (s.current_candidates.length : Int) →
      process_key_input s (48 + d) shift true =
        { ret := true, handled := true, state := s }) := by
  have hstep := digit_key_step s d shift hinit hd1 hd9
  rw [← hidx] at hstep
  have h0 : 0 ≤ idx := by
    rw [hidx]; split_ifs <;> omega
  constructor
  · intro hlt
    have hsel := select_candidate_in_range s idx h0 hlt
    rw [hstep, if_pos hlt]
    exact ⟨by rw [hsel.2], hsel.1, rfl⟩
  · intro hge
    rw [hstep, if_neg hge]

/-- Witness for C7: fourteen candidates "a".."n" on screen; digit 5 with shift
selects index 13 (the text "n") and resets the state; with ten candidates the
same key changes nothing; without shift digit 5 selects index 4. -/
theorem digit_key_witness :
    (type_keys engine_many [65]).current_candidates.length = 14 ∧
    (type_keys engine_many [65]).shift_select = true ∧
    (select_candidate (type_keys engine_many [65]) 13).1 = [110] ∧
    (process_key_input (type_keys engine_many [65]) 53 true true).state
      = (select_candidate (type_keys engine_many [65]) 13).2 ∧
    process_key_input (type_keys engine_many [65]) 53 true true =
      { ret := true, handled := true, state := engine_many } ∧
    process_key_input (type_keys engine_ten [65]) 53 true true =
      { ret := true, handled := true, state := type_keys engine_ten [65] } ∧
    (process_key_input (type_keys engine_many [65]) 53 false true).state
      = (select_candidate (type_keys engine_many [65]) 4).2 :=
  ⟨by decide, by decide, by decide,
    ((digit_key (type_keys engine_many [65]) 5 true 13 (by decide) (by decide) (by decide)
      (by decide)).1 (by decide)).2.2,
    ((digit_key (type_keys engine_many [65]) 5 true 13 (by decide) (by decide) (by decide)
      (by decide)).1 (by decide)).1.trans (by decide),
    (digit_key (type_keys engine_ten [65]) 5 true 13 (by decide) (by decide) (by decide)
      (by decide)).2 (by decide),
    ((digit_key (type_keys engine_many [65]) 5 false 4 (by decide) (by decide) (by decide)
      (by decide)).1 (by decide)).2.2⟩

/-! ## The composition engine: pagination -/

/-- Claim C8 (evaluation at the failing input). Dictionary "A" -> fourteen
candidates, "AB" -> ["z"]; the key-downs A, Page-down, B lead to a state with
one candidate and one page in which the page index is still 1: the page is
not brought back into `[0, totalPages - 1]` when the candidate list is
recomputed, and the current page shows no candidate. -/
theorem page_not_clamped_on_requery :
    engine_many.initialized = true ∧
    engine_many.current_page = 0 ∧
    (type_keys engine_many [65, VK_NEXT, 66]).current_code = [65, 66] ∧
    (type_keys engine_many [65, VK_NEXT, 66]).current_candidates = [[122]] ∧
    (type_keys engine_many [65, VK_NEXT, 66]).current_page = 1 ∧
    get_total_pages (type_keys engine_many [65, VK_NEXT, 66]) = 1 ∧
    ¬ ((type_keys engine_many [65, VK_NEXT, 66]).current_page
        ≤ get_total_pages (type_keys engine_many [65, VK_NEXT, 66]) - 1) ∧
    get_current_page_candidates (type_keys engine_many [65, VK_NEXT, 66]) = [] ∧
    (type_keys engine_many [65, VK_NEXT, VK_BACK]).current_candidates = [] ∧
    (type_keys engine_many [65, VK_NEXT, VK_BACK]).current_page = 1 ∧
    get_total_pages (type_keys engine_many [65, VK_NEXT, VK_BACK]) = 1 := by
  decide

theorem ceil_div_nat (n p : Nat) (hn : 0 < n) (hp0 : 0 < p) :
    ⌈((n : ℚ) / (p : ℚ))⌉ = (((n + p - 1) / p : Nat) : Int) ∧ 1 ≤ (n + p - 1) / p := by
  have hpq : (0 : ℚ) < (p : ℚ) := by exact_mod_cast hp0
  have h1 : (n + p - 1) / p * p ≤ n + p - 1 := Nat.div_mul_le_self _ _
  have h2 : n + p - 1 < ((n + p - 1) / p + 1) * p :=
    (Nat.div_lt_iff_lt_mul hp0).mp (Nat.lt_succ_self _)
  have hq1 : 1 ≤ (n + p - 1) / p := by
    rw [Nat.one_le_div_iff hp0]; omega
  generalize (n + p - 1) / p = q at h1 h2 hq1
  obtain ⟨r, rfl⟩ : ∃ r, q = r + 1 := ⟨q - 1, by omega⟩
  rw [Nat.add_mul, Nat.one_mul] at h1 h2
  rw [Nat.add_mul, Nat.one_mul] at h2
  refine ⟨?_, hq1⟩
  rw [Int.ceil_eq_iff]
  push_cast
  constructor
  · rw [lt_div_iff₀ hpq]
    have h3 : r * p < n := by omega
    have h4 : ((r * p : Nat) : ℚ) < (n : ℚ) := by exact_mod_cast h3
    push_cast at h4
    linarith
  · rw [div_le_iff₀ hpq]
    have h3 : n ≤ r * p + p := by omega
    have h4 : (n : ℚ) ≤ ((r * p + p : Nat) : ℚ) := by exact_mod_cast h3
    push_cast at h4
    linarith

/-- Claim C9. For a positive page size `p` and `n` candidates,
`get_total_pages` is `max(1, ceil(n / p))`, the ceiling being that of the
rational quotient. -/
theorem get_total_pages_formula (s : fqwb_input_method) (hp : 0 < s.page_size) :
    get_total_pages s =
      max 1 ⌈((s.current_candidates.length : ℚ) / (s.page_size : ℚ))⌉ := by
  obtain ⟨p, hpe⟩ : ∃ p : Nat, s.page_size = (p : Int) :=
    ⟨s.page_size.toNat, (Int.toNat_of_nonneg hp.le).symm⟩
  have hp0 : 0 < p := by omega
  by_cases hc : s.current_candidates = []
  · simp [get_total_pages, hc]
  · have hn : 0 < s.current_candidates.length := List.length_pos.mpr hc
    have hnot : ¬ ((p : Int) ≤ 0) := by omega
    simp only [get_total_pages, hpe, hnot, hc, or_self, if_false, Int.toNat_ofNat]
    obtain ⟨hceil, hq1⟩ := ceil_div_nat _ p hn hp0
    rw [Int.cast_natCast, hceil]
    have hle : (1 : Int) ≤ (((s.current_candidates.length + p - 1) / p : Nat) : Int) := by
      exact_mod_cast hq1
    exact (max_eq_right hle).symm

/-- Witness for C9: page size 9 gives 1 page for no candidate and 2 pages for
ten candidates, and these are the values of `max(1, ceil(n / 9))`. -/
theorem get_total_pages_formula_witness :
    engine_ten.page_size = 9 ∧ engine_ten.current_candidates.length = 0 ∧
    get_total_pages engine_ten = 1 ∧
    max 1 ⌈((engine_ten.current_candidates.length : ℚ) / (engine_ten.page_size : ℚ))⌉ = 1 ∧
    (type_keys engine_ten [65]).page_size = 9 ∧
    (type_keys engine_ten [65]).current_candidates.length = 10 ∧
    get_total_pages (type_keys engine_ten [65]) = 2 ∧
    max 1 ⌈(((type_keys engine_ten [65]).current_candidates.length : ℚ) /
      ((type_keys engine_ten [65]).page_size : ℚ))⌉ = 2 :=
  ⟨by decide, by decide, by decide,
    (get_total_pages_formula engine_ten (by decide)).symm.trans (by decide),
    by decide, by decide, by decide,
    (get_total_pages_formula (type_keys engine_ten [65]) (by decide)).symm.trans (by decide)⟩

theorem page_loop_eq (c : List wstring) (count : Nat) :
    ∀ (i : Nat) (r : List wstring), i + count ≤ c.length →
      page_loop c (i : Int) count r = r ++ (c.drop i).take count := by
  induction count with
  | zero => intro i r _; simp [page_loop]
  | succ k ih =>
    intro i r h
    have hi : i < c.length := by omega
    have hstep := ih (i + 1) (r ++ [c.getD i []]) (by omega)
    simp only [page_loop, Int.toNat_ofNat]
    have hcast : ((i : Int) + 1) = ((i + 1 : Nat) : Int) := by push_cast; rfl
    rw [hcast, hstep, List.drop_eq_getElem_cons hi, List.take_succ_cons,
      List.getD_eq_getElem _ _ hi, List.append_assoc]
    rfl

/-- Claim C10. For a positive page size `p` and a current page `k >= 0`,
`get_current_page_candidates` is the contiguous slice of the candidate list
from index `k * p` (inclusive) to `min(k * p + p, n)` (exclusive), in order;
it is empty when `k * p >= n`. -/
theorem get_current_page_candidates_slice (s : fqwb_input_method) (hp : 0 < s.page_size)
    (hk : 0 ≤ s.current_page) :
    get_current_page_candidates s =
      (s.current_candidates.take
        (min (s.current_page.toNat * s.page_size.toNat + s.page_size.toNat)
          s.current_candidates.length)).drop
        (s.current_page.toNat * s.page_size.toNat) ∧
    (s.current_candidates.length ≤ s.current_page.toNat * s.page_size.toNat →
      get_current_page_candidates s = []) := by
  obtain ⟨p, hpe⟩ : ∃ p : Nat, s.page_size = (p : Int) :=
    ⟨s.page_size.toNat, (Int.toNat_of_nonneg hp.le).symm⟩
  obtain ⟨k, hke⟩ : ∃ k : Nat, s.current_page = (k : Int) :=
    ⟨s.current_page.toNat, (Int.toNat_of_nonneg hk).symm⟩
  have hp0 : 0 < p := by omega
  have hslice : get_current_page_candidates s =
      (s.current_candidates.take (min (k * p + p) s.current_candidates.length)).drop
        (k * p) := by
    by_cases hc : s.current_candidates = []
    · simp [get_current_page_candidates, hc]
    · have hnot : ¬ ((p : Int) ≤ 0) := by omega
      simp only [get_current_page_candidates, hc, hpe, hke, hnot, or_self, if_false]
      generalize s.current_candidates = c
      have hstart : ((k : Int) * (p : Int)) = ((k * p : Nat) : Int) := by push_cast; rfl
      rw [hstart, List.drop_take]
      by_cases hlt : k * p ≤ c.length
      · have hcount : (min (((k * p : Nat) : Int) + (p : Int)) (c.length : Int)
            - ((k * p : Nat) : Int)).toNat = min (k * p + p) c.length - k * p := by
          omega
        rw [hcount, page_loop_eq c _ (k * p) [] (by omega)]
        simp
      · have hcount : (min (((k * p : Nat) : Int) + (p : Int)) (c.length : Int)
            - ((k * p : Nat) : Int)).toNat = 0 := by
          omega
        have h0 : min (k * p + p) c.length - k * p = 0 := by omega
        rw [hcount, h0]
        simp [page_loop]
  simp only [hpe, hke, Int.toNat_ofNat]
  refine ⟨hslice, ?_⟩
  intro hge
  rw [hslice]
  simp [List.drop_eq_nil_iff, hge]

/-- Witness for C10: ten candidates "a".."j", page size 9, page 1: the page
holds exactly the tenth candidate "j". -/
theorem get_current_page_candidates_slice_witness :
    (type_keys engine_ten [65, VK_NEXT]).current_candidates.length = 10 ∧
    (type_keys engine_ten [65, VK_NEXT]).page_size = 9 ∧
    (type_keys engine_ten [65, VK_NEXT]).current_page = 1 ∧
    (type_keys engine_ten [65, VK_NEXT]).current_candidates[9]? = some [106] ∧
    get_current_page_candidates (type_keys engine_ten [65, VK_NEXT]) = [[106]] ∧
    (type_keys engine_many [65, VK_NEXT, 66]).current_candidates.length = 1 ∧
    (type_keys engine_many [65, VK_NEXT, 66]).current_page = 1 ∧
    get_current_page_candidates (type_keys engine_many [65, VK_NEXT, 66]) = [] :=
  ⟨by decide, by decide, by decide, by decide,
    (get_current_page_candidates_slice (type_keys engine_ten [65, VK_NEXT]) (by decide)
      (by decide)).1.trans (by decide),
    by decide, by decide,
    (get_current_page_candidates_slice (type_keys engine_many [65, VK_NEXT, 66]) (by decide)
      (by decide)).2 (by decide)⟩

/-! ## The dictionary store: loading and switching -/

theorem load_line_eq (d : dictionary) (line : wstring) :
    load_line d line =
      match line_entry line with
      | some e => dict_push d e.1 e.2
      | none => d := by
  unfold load_line line_entry
  by_cases h0 : line = []
  · simp [h0]
  · simp only [h0, if_false]
    cases hf : find_space line with
    | none => simp
    | some pos =>
      simp only []
      by_cases h1 : 0 < pos ∧ pos < line.length - 1
      · simp only [h1, and_self, if_true, strip_space]
        by_cases h2 : List.filter (fun c => !iswspace c) (List.take pos line) ≠ [] ∧
            List.filter (fun c => !iswspace c) (List.drop (pos + 1) line) ≠ []
        · simp only [h2, and_self, if_true, ne_eq, not_false_eq_true]
        · rw [if_neg h2, if_neg h2]
      · simp only [h1, if_false]

theorem find_space_some_iff (ln : wstring) (pos : Nat) :
    find_space ln = some pos ↔
      ln[pos]? = some 32 ∧ ∀ j, j < pos → ln[j]? ≠ some 32 := by
  induction ln generalizing pos with
  | nil => simp [find_space]
  | cons c rest ih =>
    by_cases hc : c = 32
    · subst hc
      cases pos with
      | zero => simp [find_space]
      | succ n =>
        simp only [find_space, if_true]
        constructor
        · intro h; simp at h
        · intro ⟨_, h2⟩
          exact absurd (by simp) (h2 0 (Nat.succ_pos n))
    · cases pos with
      | zero =>
        simp only [find_space, hc, if_false]
        constructor
        · intro h
          cases hr : find_space rest <;> simp [hr] at h
        · intro ⟨h1, _⟩
          simp at h1
          exact absurd h1 hc
      | succ n =>
        simp only [find_space, hc, if_false]
        constructor
        · intro h
          cases hr : find_space rest with
          | none => simp [hr] at h
          | some m =>
            simp [hr] at h
            subst h
            obtain ⟨h1, h2⟩ := (ih m).mp hr
            refine ⟨by simpa using h1, ?_⟩
            intro j hj
            cases j with
            | zero => simpa using hc
            | succ i => simpa using h2 i (by omega)
        · intro ⟨h1, h2⟩
          have : find_space rest = some n := by
            refine (ih n).mpr ⟨by simpa using h1, ?_⟩
            intro j hj
            simpa using h2 (j + 1) (by omega)
          simp [this]

theorem find_space_none_iff (ln : wstring) :
    find_space ln = none ↔ 32 ∉ ln := by
  induction ln with
  | nil => simp [find_space]
  | cons c rest ih =>
    by_cases hc : c = 32
    · simp [find_space, hc]
    · have hc2 : ¬ (32 = c) := fun h => hc h.symm
      simp [find_space, hc, hc2, ih]

theorem dict_push_find_other (d : dictionary) (code text c : wstring) (h : c ≠ code) :
    map_find (dict_push d code text) c = map_find d c := by
  simp [dict_push, map_find_set_other _ _ _ _ h]

theorem map_eq_nil_iff_find {V : Type} (m : wmap V) :
    m = [] ↔ ∀ c, map_find m c = none := by
  constructor
  · intro h c; subst h; rfl
  · intro h
    cases m with
    | nil => rfl
    | cons e rest =>
      obtain ⟨k, v⟩ := e
      have := h k
      simp [map_find] at this

theorem foldl_load_line_find (lines : List wstring) (c : wstring) :
    ∀ d : dictionary,
      ((map_find (lines.foldl load_line d) c).getD [] =
        (map_find d c).getD [] ++
          ((lines.filterMap line_entry).filter (fun e => decide (e.1 = c))).map Prod.snd) ∧
      (map_find (lines.foldl load_line d) c = none ↔
        map_find d c = none ∧ ∀ e ∈ lines.filterMap line_entry, e.1 ≠ c) := by
  induction lines with
  | nil => intro d; simp
  | cons l rest ih =>
    intro d
    simp only [List.foldl_cons]
    obtain ⟨ih1, ih2⟩ := ih (load_line d l)
    rw [ih1, ih2, load_line_eq]
    cases he : line_entry l with
    | none => simp [List.filterMap_cons, he]
    | some e =>
      obtain ⟨k, t⟩ := e
      simp only [List.filterMap_cons, he]
      by_cases hk : k = c
      · subst hk
        simp [dict_push_find_same, List.filter_cons]
      · have hck : c ≠ k := fun h => hk h.symm
        simp [dict_push_find_other _ _ _ _ hck, List.filter_cons, hk]

theorem load_lines_eq_nil_iff (lines : List wstring) :
    load_lines lines = [] ↔ ∀ l ∈ lines, line_entry l = none := by
  rw [map_eq_nil_iff_find]
  constructor
  · intro h l hl
    cases he : line_entry l with
    | none => rfl
    | some e =>
      have := ((foldl_load_line_find lines e.1 []).2.mp (h e.1)).2 e
        (List.mem_filterMap.mpr ⟨l, hl, he⟩)
      exact absurd rfl this
  · intro h c
    refine (foldl_load_line_find lines c []).2.mpr ⟨rfl, ?_⟩
    intro e he
    obtain ⟨l, hl, hle⟩ := List.mem_filterMap.mp he
    rw [h l hl] at hle
    cases hle

theorem line_entry_of_first_space (ln : wstring) (pos : Nat)
    (h1 : ln[pos]? = some 32) (h2 : ∀ j, j < pos → ln[j]? ≠ some 32) :
    line_entry ln =
      if strip_space (ln.take pos) ≠ [] ∧ strip_space (ln.drop (pos + 1)) ≠ [] then
        some (strip_space (ln.take pos), strip_space (ln.drop (pos + 1)))
      else none := by
  have hf : find_space ln = some pos := (find_space_some_iff ln pos).mpr ⟨h1, h2⟩
  have hlt : pos < ln.length := by
    by_contra hge
    rw [List.getElem?_eq_none (by omega)] at h1
    cases h1
  have hne : ln ≠ [] := by
    intro h; subst h; simp at hlt
  unfold line_entry
  simp only [hne, if_false, hf]
  by_cases hc : strip_space (ln.take pos) ≠ [] ∧ strip_space (ln.drop (pos + 1)) ≠ []
  · have hp0 : 0 < pos := by
      by_contra h0
      have : pos = 0 := by omega
      subst this
      exact hc.1 (by simp [strip_space])
    have hp1 : pos < ln.length - 1 := by
      by_contra h0
      have hd : ln.drop (pos + 1) = [] := List.drop_eq_nil_iff.mpr (by omega)
      exact hc.2 (by simp [strip_space, hd])
    simp only [hp0, hp1, and_self, if_true]
  · rw [if_neg hc]
    split_ifs <;> rfl

/-- Claim C12 (amended). The separator of a dictionary line is its first space
character (U+0020). When the line has non-empty non-whitespace content on both
sides of its first space, the line contributes one entry: the code is the part
before that space and the text is the remainder after it, each with all white
space removed. A line without a space, or with only white space on one side
of its first space, contributes nothing. -/
theorem load_line_space_separated (d : dictionary) (ln : wstring) :
    (∀ pos, ln[pos]? = some 32 → (∀ j, j < pos → ln[j]? ≠ some 32) →
      strip_space (ln.take pos) ≠ [] → strip_space (ln.drop (pos + 1)) ≠ [] →
      line_entry ln = some (strip_space (ln.take pos), strip_space (ln.drop (pos + 1))) ∧
      load_line d ln =
        dict_push d (strip_space (ln.take pos)) (strip_space (ln.drop (pos + 1)))) ∧
    ((32 ∉ ln ∨ ∃ pos, ln[pos]? = some 32 ∧ (∀ j, j < pos → ln[j]? ≠ some 32) ∧
        (strip_space (ln.take pos) = [] ∨ strip_space (ln.drop (pos + 1)) = [])) →
      line_entry ln = none ∧ load_line d ln = d) ∧
    (∀ code text, line_entry ln = some (code, text) →
      (∀ c ∈ code, iswspace c = false) ∧ (∀ c ∈ text, iswspace c = false)) := by
  refine ⟨?_, ?_, ?_⟩
  · intro pos h1 h2 h3 h4
    have he := line_entry_of_first_space ln pos h1 h2
    rw [if_pos ⟨h3, h4⟩] at he
    refine ⟨he, ?_⟩
    rw [load_line_eq, he]
  · intro h
    have he : line_entry ln = none := by
      rcases h with h | ⟨pos, h1, h2, h3⟩
      · have hf := (find_space_none_iff ln).mpr h
        unfold line_entry
        split_ifs
        · rfl
        · simp [hf]
      · rw [line_entry_of_first_space ln pos h1 h2, if_neg]
        intro hc
        rcases h3 with h3 | h3
        · exact hc.1 h3
        · exact hc.2 h3
    refine ⟨he, ?_⟩
    rw [load_line_eq, he]
  · intro code text he
    have hmem : ∀ x : wstring, ∀ c ∈ strip_space x, iswspace c = false := by
      intro x c hc
      simpa [strip_space] using (List.mem_filter.mp hc).2
    unfold line_entry at he
    split_ifs at he
    cases hf : find_space ln with
    | none => simp [hf] at he
    | some pos =>
      simp only [hf] at he
      split_ifs at he
      simp only [Option.some.injEq, Prod.mk.injEq] at he
      obtain ⟨rfl, rfl⟩ := he
      exact ⟨hmem _, hmem _⟩

/-- Claim C13. The candidate list that `load_dictionary` builds for a code `c`
is exactly the sequence of texts of the accepted lines whose code is `c`, in
file order and with duplicates kept; `c` is absent from the dictionary exactly
when no accepted line has code `c`; lines are processed one after the
other. -/
theorem load_lines_candidates (lines : List wstring) (c : wstring) :
    (map_find (load_lines lines) c).getD [] =
      ((lines.filterMap line_entry).filter (fun e => decide (e.1 = c))).map Prod.snd ∧
    (map_find (load_lines lines) c = none ↔ ∀ e ∈ lines.filterMap line_entry, e.1 ≠ c) ∧
    (∀ (ln : wstring), load_lines (lines ++ [ln]) = load_line (load_lines lines) ln) := by
  have h := foldl_load_line_find lines c []
  refine ⟨by simpa [load_lines] using h.1, by simpa [load_lines, map_find] using h.2, ?_⟩
  intro ln
  simp [load_lines, List.foldl_append]

/-- Claim C14. `load_dictionary name file` returns true exactly when the file
could be opened and at least one of its lines is accepted; then the stored
collection maps `name` to the parsed dictionary and nothing else changes; when
it returns false the whole store is unchanged, so a dictionary registered
under `name` before is still registered with its contents. -/
theorem load_dictionary_result (s : dictionary_manager) (name : wstring)
    (file : Option (List wstring)) :
    ((load_dictionary s name file).1 = true ↔
      ∃ lines, file = some lines ∧ ∃ l ∈ lines, line_entry l ≠ none) ∧
    (∀ lines, file = some lines → (load_dictionary s name file).1 = true →
      (load_dictionary s name file).2 =
        { s with dictionaries := map_set s.dictionaries name (load_lines lines) } ∧
      map_find (load_dictionary s name file).2.dictionaries name = some (load_lines lines) ∧
      ∀ n, n ≠ name →
        map_find (load_dictionary s name file).2.dictionaries n = map_find s.dictionaries n) ∧
    ((load_dictionary s name file).1 = false →
      (load_dictionary s name file).2 = s ∧
      map_find (load_dictionary s name file).2.dictionaries name
        = map_find s.dictionaries name) := by
  cases file with
  | none => simp [load_dictionary]
  | some lines =>
    by_cases hnil : load_lines lines = []
    · have hall := (load_lines_eq_nil_iff lines).mp hnil
      refine ⟨?_, ?_, ?_⟩
      · simp only [load_dictionary, hnil, ne_eq, not_true_eq_false, if_false]
        constructor
        · intro h; cases h
        · rintro ⟨ls, hls, l, hl, hne⟩
          cases hls
          exact absurd (hall l hl) hne
      · intro ls hls h
        simp [load_dictionary, hnil] at h
      · intro _
        simp [load_dictionary, hnil]
    · have hex : ∃ l ∈ lines, line_entry l ≠ none := by
        by_contra hcon
        push_neg at hcon
        exact hnil ((load_lines_eq_nil_iff lines).mpr hcon)
      have hld : load_dictionary s name (some lines) =
          (true, { s with dictionaries := map_set s.dictionaries name (load_lines lines) }) := by
        simp [load_dictionary, hnil]
      rw [hld]
      refine ⟨?_, ?_, ?_⟩
      · exact ⟨fun _ => ⟨lines, rfl, hex⟩, fun _ => rfl⟩
      · intro ls hls _
        cases hls
        refine ⟨rfl, map_find_set_same _ _ _, ?_⟩
        intro n hn
        exact map_find_set_other _ _ _ _ hn
      · intro h
        cases h

/-- Claim C15. `switch_dictionary name` returns false exactly when the store is
uninitialized or `name` is not registered, and then the store is unchanged;
otherwise it returns true, the active name is `name`, the active snapshot is
the dictionary stored under `name`, and the stored collection is unchanged. -/
theorem switch_dictionary_result (s : dictionary_manager) (name : wstring) :
    ((switch_dictionary s name).1 = false ↔
      s.initialized = false ∨ name ∉ map_keys s.dictionaries) ∧
    ((switch_dictionary s name).1 = false → (switch_dictionary s name).2 = s) ∧
    ((switch_dictionary s name).1 = true →
      (switch_dictionary s name).2.current_dict_name = name ∧
      map_find s.dictionaries name = some (switch_dictionary s name).2.dict ∧
      (switch_dictionary s name).2.dictionaries = s.dictionaries ∧
      (switch_dictionary s name).2.initialized = s.initialized ∧
      (switch_dictionary s name).2.data_dir = s.data_dir) := by
  by_cases hi : s.initialized = true
  · cases hf : map_find s.dictionaries name with
    | none =>
      have hk := (map_find_eq_none_iff _ _).mp hf
      simp [switch_dictionary, hi, hf, hk]
    | some d =>
      have hk : ¬ name ∉ map_keys s.dictionaries := by
        intro hk
        rw [(map_find_eq_none_iff _ _).mpr hk] at hf
        cases hf
      simp [switch_dictionary, hi, hf, hk]
  · have hi2 : s.initialized = false := by simpa using hi
    simp [switch_dictionary, hi2]

/-- Witness for C12 (amended): the line "AB", two spaces, "x", tab, "y" gives
the entry "AB" -> "xy"; the tab-separated line "A", tab, "x" has no space and
gives nothing. -/
theorem load_line_space_separated_witness :
    load_line [] [65, 66, 32, 32, 120, 9, 121] = [([65, 66], [[120, 121]])] ∧
    line_entry [65, 66, 32, 32, 120, 9, 121] = some ([65, 66], [120, 121]) ∧
    load_line [([65, 66], [[122]])] [65, 9, 120] = [([65, 66], [[122]])] :=
  ⟨((load_line_space_separated [] [65, 66, 32, 32, 120, 9, 121]).1 2 (by decide) (by decide)
      (by decide) (by decide)).2.trans (by decide),
    ((load_line_space_separated [] [65, 66, 32, 32, 120, 9, 121]).1 2 (by decide) (by decide)
      (by decide) (by decide)).1.trans (by decide),
    ((load_line_space_separated [([65, 66], [[122]])] [65, 9, 120]).2.1
      (Or.inl (by decide))).2⟩

/-- Counterexample to C12 as stated: in the line "A", tab, "x" the first
white-space character is the tab, with "A" before and "x" after it, yet the
line contributes no entry (and a file made of it does not load); in the line
"A", tab, "B", space, "x" the first white-space character is again the tab, but
the entry recorded is "AB" -> "x", not "A" -> "Bx". -/
theorem tab_separated_line_not_parsed :
    iswspace 9 = true ∧ iswspace 65 = false ∧ iswspace 66 = false ∧ iswspace 120 = false ∧
    line_entry [65, 9, 120] = none ∧
    load_line [] [65, 9, 120] = [] ∧
    (load_dictionary store_two [110] (some [[65, 9, 120]])).1 = false ∧
    line_entry [65, 9, 66, 32, 120] = some ([65, 66], [120]) ∧
    load_line [] [65, 9, 66, 32, 120] = [([65, 66], [[120]])] := by
  decide

/-- Witness for C13: the lines "A x", "B y", "bad", "A z", "A x" give
"A" -> ["x", "z", "x"] and "B" -> ["y"], and no list for "bad". -/
theorem load_lines_candidates_witness :
    (map_find (load_lines lines_repeated) [65]).getD [] = [[120], [122], [120]] ∧
    (map_find (load_lines lines_repeated) [66]).getD [] = [[121]] ∧
    map_find (load_lines lines_repeated) [98, 97, 100] = none :=
  ⟨(load_lines_candidates lines_repeated [65]).1.trans (by decide),
    (load_lines_candidates lines_repeated [66]).1.trans (by decide),
    (load_lines_candidates lines_repeated [98, 97, 100]).2.1.mpr (by decide)⟩

/-- Witness for C14: on the store with "default" and "m" registered, loading
"m" from an unreadable file or from a file without accepted lines returns
false and keeps the store; loading it from the file "B y" returns true and
registers "m" -> {"B" -> ["y"]}. -/
theorem load_dictionary_result_witness :
    (load_dictionary store_two [109] none).1 = false ∧
    (load_dictionary store_two [109] none).2 = store_two ∧
    (load_dictionary store_two [109] (some [[98, 97, 100]])).1 = false ∧
    (load_dictionary store_two [109] (some [[98, 97, 100]])).2 = store_two ∧
    map_find (load_dictionary store_two [109] (some [[98, 97, 100]])).2.dictionaries [109]
      = some [([65], [[120]])] ∧
    (load_dictionary store_two [109] (some [[66, 32, 121]])).1 = true ∧
    map_find (load_dictionary store_two [109] (some [[66, 32, 121]])).2.dictionaries [109]
      = some [([66], [[121]])] :=
  ⟨by decide,
    ((load_dictionary_result store_two [109] none).2.2 (by decide)).1,
    by decide,
    ((load_dictionary_result store_two [109] (some [[98, 97, 100]])).2.2 (by decide)).1,
    ((load_dictionary_result store_two [109] (some [[98, 97, 100]])).2.2
      (by decide)).2.trans (by decide),
    (load_dictionary_result store_two [109] (some [[66, 32, 121]])).1.mpr
      ⟨[[66, 32, 121]], rfl, [66, 32, 121], by decide, by decide⟩,
    (((load_dictionary_result store_two [109] (some [[66, 32, 121]])).2.1 [[66, 32, 121]] rfl
      (by decide)).2.1).trans (by decide)⟩

/-- Witness for C15: on the store with "default" active and "m" registered,
switching to "m" succeeds and makes {"A" -> ["x"]} the snapshot; switching to
the unregistered "z" fails and changes nothing. -/
theorem switch_dictionary_result_witness :
    (switch_dictionary store_two [109]).1 = true ∧
    (switch_dictionary store_two [109]).2.current_dict_name = [109] ∧
    (switch_dictionary store_two [109]).2.dict = [([65], [[120]])] ∧
    (switch_dictionary store_two [109]).2.dictionaries = store_two.dictionaries ∧
    (switch_dictionary store_two [122]).1 = false ∧
    (switch_dictionary store_two [122]).2 = store_two :=
  ⟨by decide,
    ((switch_dictionary_result store_two [109]).2.2 (by decide)).1,
    by decide,
    ((switch_dictionary_result store_two [109]).2.2 (by decide)).2.2.1,
    (switch_dictionary_result store_two [122]).1.mpr (Or.inr (by decide)),
    (switch_dictionary_result store_two [122]).2.1 (by decide)⟩

/-! ## The dictionary store: initialization -/

theorem map_set_length_of_find_none {V : Type} (m : wmap V) (k : wstring) (v : V)
    (h : map_find m k = none) : (map_set m k v).length = m.length + 1 := by
  induction m with
  | nil => simp [map_set]
  | cons e rest ih =>
    obtain ⟨k0, w⟩ := e
    by_cases hk : k0 = k
    · simp [map_find, hk] at h
    · simp only [map_find, hk, if_false] at h
      by_cases hlt : wstring_lt k k0 = true
      · simp [map_set, hk, hlt]
      · simp [map_set, hk, hlt, ih h]

theorem entry_dictionary_eq_some (e : dir_entry) (d : dictionary)
    (h : entry_dictionary e = some d) :
    e.is_directory = false ∧ ∃ lines, e.file = some lines ∧ load_lines lines = d ∧ d ≠ [] := by
  unfold entry_dictionary at h
  by_cases hd : e.is_directory = true
  · simp [hd] at h
  · have hd2 : e.is_directory = false := by simpa using hd
    refine ⟨hd2, ?_⟩
    cases hf : e.file with
    | none => simp [hd2, hf] at h
    | some lines =>
      simp only [hd2, hf] at h
      by_cases hn : load_lines lines = []
      · simp [hn] at h
      · simp [hn] at h
        exact ⟨lines, rfl, h, h ▸ hn⟩

theorem entry_dictionary_eq_none (e : dir_entry) (h : entry_dictionary e = none) :
    e.is_directory = true ∨ e.file = none ∨ ∃ lines, e.file = some lines ∧ load_lines lines = [] := by
  unfold entry_dictionary at h
  by_cases hd : e.is_directory = true
  · exact Or.inl hd
  · have hd2 : e.is_directory = false := by simpa using hd
    cases hf : e.file with
    | none => exact Or.inr (Or.inl rfl)
    | some lines =>
      simp only [hd2, hf] at h
      by_cases hn : load_lines lines = []
      · exact Or.inr (Or.inr ⟨lines, rfl, hn⟩)
      · simp [hn] at h

theorem initialize_entry_of_none (s : dictionary_manager) (e : dir_entry)
    (h : entry_dictionary e = none) : initialize_entry s e = s := by
  rcases entry_dictionary_eq_none e h with hd | hf | ⟨lines, hf, hn⟩
  · simp [initialize_entry, hd]
  · simp [initialize_entry, load_dictionary, hf]
  · by_cases hd : e.is_directory = true
    · simp [initialize_entry, hd]
    · simp [initialize_entry, load_dictionary, hf, hn]

theorem initialize_entry_of_some (s : dictionary_manager) (e : dir_entry) (d : dictionary)
    (h : entry_dictionary e = some d) :
    initialize_entry s e =
      if (map_set s.dictionaries (dict_name_of e.cFileName) d).length = 1 then
        (switch_dictionary
          { s with dictionaries := map_set s.dictionaries (dict_name_of e.cFileName) d }
          (dict_name_of e.cFileName)).2
      else { s with dictionaries := map_set s.dictionaries (dict_name_of e.cFileName) d } := by
  obtain ⟨hd, lines, hf, hl, hne⟩ := entry_dictionary_eq_some e d h
  subst hl
  simp only [initialize_entry, load_dictionary, hd, hf, ne_eq, hne, not_false_eq_true, if_true,
    Bool.not_false]

theorem parsed_files_cons (e : dir_entry) (rest : List dir_entry) :
    parsed_files (e :: rest) =
      match entry_dictionary e with
      | none => parsed_files rest
      | some d => (dict_name_of e.cFileName, d) :: parsed_files rest := by
  unfold parsed_files
  cases h : entry_dictionary e <;> simp [List.filterMap_cons, h]

theorem store_tracks_step (s : dictionary_manager) (ps : List (wstring × dictionary))
    (e : dir_entry) (d : dictionary) (hinv : store_tracks s ps)
    (h : entry_dictionary e = some d) (hfresh : dict_name_of e.cFileName ∉ ps.map Prod.fst) :
    store_tracks (initialize_entry s e) (ps ++ [(dict_name_of e.cFileName, d)]) := by
  obtain ⟨hi, hlen, hreg, hunreg, hhead, hnil⟩ := hinv
  have hnone := hunreg _ hfresh
  have hlen2 := map_set_length_of_find_none s.dictionaries (dict_name_of e.cFileName) d hnone
  rw [initialize_entry_of_some s e d h]
  have hregs : ∀ q ∈ ps ++ [(dict_name_of e.cFileName, d)],
      map_find (map_set s.dictionaries (dict_name_of e.cFileName) d) q.1 = some q.2 := by
    intro q hq
    rcases List.mem_append.mp hq with hq | hq
    · have hne : q.1 ≠ dict_name_of e.cFileName := by
        intro heq
        exact hfresh (heq ▸ List.mem_map_of_mem Prod.fst hq)
      rw [map_find_set_other _ _ _ _ hne]
      exact hreg q hq
    · simp only [List.mem_singleton] at hq
      subst hq
      exact map_find_set_same _ _ _
  have hunregs : ∀ n, n ∉ (ps ++ [(dict_name_of e.cFileName, d)]).map Prod.fst →
      map_find (map_set s.dictionaries (dict_name_of e.cFileName) d) n = none := by
    intro n hn
    simp only [List.map_append, List.map_cons, List.map_nil, List.mem_append,
      List.mem_singleton, not_or] at hn
    rw [map_find_set_other _ _ _ _ hn.2]
    exact hunreg n hn.1
  cases ps with
  | nil =>
    have h1 : (map_set s.dictionaries (dict_name_of e.cFileName) d).length = 1 := by
      rw [hlen2, hlen]; rfl
    rw [if_pos h1]
    have hsw := switch_dictionary_of_find
      { s with dictionaries := map_set s.dictionaries (dict_name_of e.cFileName) d }
      (dict_name_of e.cFileName) d hi (map_find_set_same _ _ _)
    rw [hsw]
    refine ⟨hi, by simpa using h1, hregs, hunregs, ?_, ?_⟩
    · intro p hp
      simp at hp
      subst hp
      exact ⟨rfl, rfl⟩
    · intro hcon; simp at hcon
  | cons p0 ps0 =>
    have h1 : ¬ (map_set s.dictionaries (dict_name_of e.cFileName) d).length = 1 := by
      rw [hlen2, hlen]; simp
    rw [if_neg h1]
    refine ⟨hi, by simp [hlen2, hlen], hregs, hunregs, ?_, ?_⟩
    · intro p hp
      simp at hp
      exact hhead p (by simp [hp])
    · intro hcon; simp at hcon

theorem foldl_initialize_entry_tracks (entries : List dir_entry) :
    ∀ (s : dictionary_manager) (ps : List (wstring × dictionary)),
      store_tracks s ps →
      ((ps ++ parsed_files entries).map Prod.fst).Nodup →
      store_tracks (entries.foldl initialize_entry s) (ps ++ parsed_files entries) := by
  induction entries with
  | nil => intro s ps hinv _; simpa [parsed_files] using hinv
  | cons e rest ih =>
    intro s ps hinv hnd
    rw [parsed_files_cons] at hnd ⊢
    simp only [List.foldl_cons]
    cases he : entry_dictionary e with
    | none =>
      simp only [he] at hnd ⊢
      rw [initialize_entry_of_none s e he]
      exact ih s ps hinv hnd
    | some d =>
      simp only [he] at hnd ⊢
      have hfresh : dict_name_of e.cFileName ∉ ps.map Prod.fst := by
        intro hmem
        rw [List.map_append, List.map_cons] at hnd
        have := (List.nodup_append.mp hnd).2.2
        exact this hmem (List.mem_cons_self _ _)
      have hstep := store_tracks_step s ps e d hinv he hfresh
      have := ih (initialize_entry s e) (ps ++ [(dict_name_of e.cFileName, d)]) hstep
        (by simpa [List.append_assoc] using hnd)
      simpa [List.append_assoc] using this

theorem parsed_files_append (a b : List dir_entry) :
    parsed_files (a ++ b) = parsed_files a ++ parsed_files b := by
  simp [parsed_files, List.filterMap_append]

theorem parsed_files_eq_nil (a : List dir_entry) (h : ∀ x ∈ a, entry_dictionary x = none) :
    parsed_files a = [] := by
  induction a with
  | nil => rfl
  | cons e rest ih =>
    rw [parsed_files_cons, h e (List.mem_cons_self _ _)]
    exact ih (fun x hx => h x (List.mem_cons_of_mem _ hx))

theorem mem_parsed_files (entries : List dir_entry) (q : wstring × dictionary) :
    q ∈ parsed_files entries ↔
      ∃ x ∈ entries, entry_dictionary x = some q.2 ∧ dict_name_of x.cFileName = q.1 := by
  unfold parsed_files
  rw [List.mem_filterMap]
  constructor
  · rintro ⟨x, hx, hq⟩
    cases hd : entry_dictionary x with
    | none => simp [hd] at hq
    | some d =>
      simp [hd] at hq
      subst hq
      exact ⟨x, hx, hd, rfl⟩
  · rintro ⟨x, hx, hd, hn⟩
    refine ⟨x, hx, ?_⟩
    simp [hd, hn]

theorem entry_dictionary_ne_none_iff (s : dictionary_manager) (e : dir_entry) :
    entry_dictionary e ≠ none ↔
      e.is_directory = false ∧
      (load_dictionary s (dict_name_of e.cFileName) e.file).1 = true := by
  unfold entry_dictionary load_dictionary
  by_cases hd : e.is_directory = true
  · simp [hd]
  · have hd2 : e.is_directory = false := by simpa using hd
    cases hf : e.file with
    | none => simp [hd2]
    | some lines =>
      by_cases hn : load_lines lines = [] <;> simp [hd2, hn]

/-- Claim C16 (amended). On a fresh store, for an enumeration in which the
successfully parsed files have pairwise distinct base names and `e` is the
first entry that parses successfully (to the dictionary `d`): `initialize`
returns true, the active name is the base name of `e`, the active snapshot is
`d`, every successfully parsed file is registered under its base name with
its dictionary, and nothing else is registered (no built-in dictionary). -/
theorem initialize_first_parsed (dir : wstring) (entries pre post : List dir_entry)
    (e : dir_entry) (d : dictionary)
    (hsplit : entries = pre ++ e :: post)
    (hpre : ∀ x ∈ pre, entry_dictionary x = none)
    (he : entry_dictionary e = some d)
    (hnd : ((parsed_files entries).map Prod.fst).Nodup) :
    (initialize_dictionary_manager dictionary_manager.new dir entries).1 = true ∧
    (initialize_dictionary_manager dictionary_manager.new dir entries).2.initialized = true ∧
    (initialize_dictionary_manager dictionary_manager.new dir entries).2.current_dict_name
      = dict_name_of e.cFileName ∧
    (initialize_dictionary_manager dictionary_manager.new dir entries).2.dict = d ∧
    (∀ x ∈ entries, ∀ dx, entry_dictionary x = some dx →
      map_find (initialize_dictionary_manager dictionary_manager.new dir entries).2.dictionaries
        (dict_name_of x.cFileName) = some dx) ∧
    (∀ n, map_find (initialize_dictionary_manager dictionary_manager.new dir
        entries).2.dictionaries n ≠ none →
      ∃ x ∈ entries, entry_dictionary x ≠ none ∧ dict_name_of x.cFileName = n) ∧
    (initialize_dictionary_manager dictionary_manager.new dir entries).2.dictionaries.length
      = (parsed_files entries).length := by
  have hinv0 : store_tracks
      { dictionary_manager.new with data_dir := dir, initialized := true } [] := by
    refine ⟨rfl, rfl, ?_, ?_, ?_, ?_⟩
    · intro q hq; cases hq
    · intro n _; rfl
    · intro p hp; cases hp
    · intro _; exact ⟨rfl, rfl⟩
  have hinv := foldl_initialize_entry_tracks entries _ [] hinv0 (by simpa using hnd)
  simp only [List.nil_append] at hinv
  obtain ⟨hi, hlen, hreg, hunreg, hhead, _⟩ := hinv
  have hparsed : parsed_files entries =
      (dict_name_of e.cFileName, d) :: parsed_files post := by
    rw [hsplit, parsed_files_append, parsed_files_eq_nil pre hpre, parsed_files_cons, he]
    rfl
  have hne : (entries.foldl initialize_entry
      { dictionary_manager.new with data_dir := dir, initialized := true }).dictionaries ≠ [] := by
    intro h
    rw [h, hparsed] at hlen
    simp at hlen
  have hres : initialize_dictionary_manager dictionary_manager.new dir entries =
      (true, entries.foldl initialize_entry
        { dictionary_manager.new with data_dir := dir, initialized := true }) := by
    simp only [initialize_dictionary_manager, hne, if_false]
  rw [hres]
  obtain ⟨hname, hdict⟩ := hhead (dict_name_of e.cFileName, d) (by rw [hparsed]; rfl)
  refine ⟨rfl, hi, hname, hdict, ?_, ?_, hlen⟩
  · intro x hx dx hdx
    exact hreg (dict_name_of x.cFileName, dx)
      ((mem_parsed_files entries _).mpr ⟨x, hx, hdx, rfl⟩)
  · intro n hn
    by_contra hcon
    apply hn
    apply hunreg
    intro hmem
    obtain ⟨q, hq, hqn⟩ := List.mem_map.mp hmem
    obtain ⟨x, hx, hdx, hxn⟩ := (mem_parsed_files entries q).mp hq
    exact hcon ⟨x, hx, by rw [hdx]; simp, hxn.trans hqn⟩

/-- Witness for C16 (amended): a directory, an unreadable file, then "w.dic"
("A x") and "v.dic" ("B y"): "w" becomes active with {"A" -> ["x"]}, both
files are registered and "default" is not. -/
theorem initialize_first_parsed_witness :
    ((parsed_files entries_two_files).map Prod.fst).Nodup ∧
    (initialize_dictionary_manager dictionary_manager.new [68] entries_two_files).1 = true ∧
    (initialize_dictionary_manager dictionary_manager.new [68]
      entries_two_files).2.current_dict_name = [119] ∧
    (initialize_dictionary_manager dictionary_manager.new [68] entries_two_files).2.dict
      = [([65], [[120]])] ∧
    map_find (initialize_dictionary_manager dictionary_manager.new [68]
      entries_two_files).2.dictionaries [118] = some [([66], [[121]])] ∧
    map_find (initialize_dictionary_manager dictionary_manager.new [68]
      entries_two_files).2.dictionaries L_default = none :=
  ⟨by decide,
    (initialize_first_parsed [68] entries_two_files (entries_two_files.take 2)
      (entries_two_files.drop 3) ⟨[119, 46, 100, 105, 99], false, some [[65, 32, 120]]⟩
      [([65], [[120]])] (by decide) (by decide) (by decide) (by decide)).1,
    (initialize_first_parsed [68] entries_two_files (entries_two_files.take 2)
      (entries_two_files.drop 3) ⟨[119, 46, 100, 105, 99], false, some [[65, 32, 120]]⟩
      [([65], [[120]])] (by decide) (by decide) (by decide) (by decide)).2.2.1.trans
      (by decide),
    (initialize_first_parsed [68] entries_two_files (entries_two_files.take 2)
      (entries_two_files.drop 3) ⟨[119, 46, 100, 105, 99], false, some [[65, 32, 120]]⟩
      [([65], [[120]])] (by decide) (by decide) (by decide) (by decide)).2.2.2.1,
    (initialize_first_parsed [68] entries_two_files (entries_two_files.take 2)
      (entries_two_files.drop 3) ⟨[119, 46, 100, 105, 99], false, some [[65, 32, 120]]⟩
      [([65], [[120]])] (by decide) (by decide) (by decide) (by decide)).2.2.2.2.1
      ⟨[118, 46, 100, 105, 99], false, some [[66, 32, 121]]⟩ (by decide) _ (by decide),
    by decide⟩

/-- Counterexample to C16 as stated: the enumeration "w.dic" ("A x"), "w.dict"
("B y") has two successfully parsed files with the base name "w". The first
file that parses gives {"A" -> ["x"]}, but after `initialize` the active
snapshot and the dictionary registered under "w" are those of the second
file, {"B" -> ["y"]}. -/
theorem initialize_same_base_name :
    parsed_files entries_same_base =
      [([119], [([65], [[120]])]), ([119], [([66], [[121]])])] ∧
    (initialize_dictionary_manager dictionary_manager.new [68] entries_same_base).1 = true ∧
    (initialize_dictionary_manager dictionary_manager.new [68]
      entries_same_base).2.current_dict_name = [119] ∧
    (initialize_dictionary_manager dictionary_manager.new [68] entries_same_base).2.dict
      = [([66], [[121]])] ∧
    (initialize_dictionary_manager dictionary_manager.new [68] entries_same_base).2.dict
      ≠ [([65], [[120]])] ∧
    map_find (initialize_dictionary_manager dictionary_manager.new [68]
      entries_same_base).2.dictionaries [119] = some [([66], [[121]])] := by
  decide

/-- Claim C11 (evaluation at the failing input). On an empty directory, and on
a directory in which nothing parses, `initialize` returns true and the
built-in dictionary is active and registered under "default"; its words are
stored under the lowercase codes "abc", ..., so `search_code "abc"` is
["测试"] while `search_code "ABC"` is empty, and typing A, B, C (key codes of
the uppercase letters) finds no candidate. -/
theorem default_dictionary_lowercase :
    (initialize_dictionary_manager dictionary_manager.new [68] []).1 = true ∧
    (initialize_dictionary_manager dictionary_manager.new [68] []).2.current_dict_name
      = L_default ∧
    map_find (initialize_dictionary_manager dictionary_manager.new [68] []).2.dictionaries
        L_default
      = some (initialize_dictionary_manager dictionary_manager.new [68] []).2.dict ∧
    map_keys (initialize_dictionary_manager dictionary_manager.new [68] []).2.dict
      = default_words.map Prod.fst ∧
    search_code (initialize_dictionary_manager dictionary_manager.new [68] []).2 [97, 98, 99]
      = [text_ceshi] ∧
    search_code (initialize_dictionary_manager dictionary_manager.new [68] []).2 code_ABC
      = [] ∧
    parsed_files entries_unparsed = [] ∧
    initialize_dictionary_manager dictionary_manager.new [68] entries_unparsed =
      initialize_dictionary_manager dictionary_manager.new [68] [] ∧
    (type_keys (initialize_input_method fqwb_input_method.new [68] []).2
      code_ABC).current_code = code_ABC ∧
    (type_keys (initialize_input_method fqwb_input_method.new [68] []).2
      code_ABC).current_candidates = [] := by
  decide

/-! ## The dictionary store: before initialization -/

/-- Claim C17 (amended). On a store on which `initialize` has not been called,
`search_code`, `get_all_codes` and `get_available_dictionaries` return the
empty list, and `add_word`, `switch_dictionary`, `save_user_dictionary` and
`clear_user_dictionary` return false and leave the store unchanged;
`get_current_dictionary` returns the stored name, which is "default" on a
newly constructed store. -/
theorem uninitialized_operations (s : dictionary_manager) (h : s.initialized = false)
    (code text name : wstring) :
    search_code s code = [] ∧
    add_word s code text = (false, s) ∧
    switch_dictionary s name = (false, s) ∧
    get_all_codes s = [] ∧
    get_available_dictionaries s = [] ∧
    save_user_dictionary s = (false, s) ∧
    clear_user_dictionary s = (false, s) ∧
    get_current_dictionary s = s.current_dict_name ∧
    get_current_dictionary dictionary_manager.new = L_default := by
  simp [search_code, add_word, switch_dictionary, get_all_codes, get_available_dictionaries,
    save_user_dictionary, clear_user_dictionary, get_current_dictionary, h,
    dictionary_manager.new]


/-- Witness for C17 (amended): on the newly constructed store nothing is
found, added or switched, and the current name is "default"; on an
uninitialized store in which "m" is registered, switching to "m" still fails
and changes nothing. -/
theorem uninitialized_operations_witness :
    dictionary_manager.new.initialized = false ∧
    search_code dictionary_manager.new code_ABC = [] ∧
    add_word dictionary_manager.new code_ABC text_ceshi = (false, dictionary_manager.new) ∧
    get_current_dictionary dictionary_manager.new = L_default ∧
    map_find (load_dictionary dictionary_manager.new [109]
      (some [[65, 32, 120]])).2.dictionaries [109] ≠ none ∧
    switch_dictionary (load_dictionary dictionary_manager.new [109] (some [[65, 32, 120]])).2
        [109]
      = (false, (load_dictionary dictionary_manager.new [109] (some [[65, 32, 120]])).2) :=
  ⟨by decide,
    (uninitialized_operations dictionary_manager.new (by decide) code_ABC text_ceshi [109]).1,
    (uninitialized_operations dictionary_manager.new (by decide) code_ABC text_ceshi
      [109]).2.1,
    (uninitialized_operations dictionary_manager.new (by decide) code_ABC text_ceshi
      [109]).2.2.2.2.2.2.2.2,
    by decide,
    (uninitialized_operations
      (load_dictionary dictionary_manager.new [109] (some [[65, 32, 120]])).2 (by decide)
      code_ABC text_ceshi [109]).2.2.1⟩

/-- Counterexample to C17 as stated: on the newly constructed store
`get_current_dictionary` returns the non-empty name "default", and
`load_dictionary` from the file "A x" returns true and registers the
dictionary, changing the store while it stays uninitialized. -/
theorem uninitialized_load_and_name :
    dictionary_manager.new.initialized = false ∧
    get_current_dictionary dictionary_manager.new = L_default ∧
    get_current_dictionary dictionary_manager.new ≠ [] ∧
    (load_dictionary dictionary_manager.new [109] (some [[65, 32, 120]])).1 = true ∧
    (load_dictionary dictionary_manager.new [109] (some [[65, 32, 120]])).2
      ≠ dictionary_manager.new ∧
    (load_dictionary dictionary_manager.new [109] (some [[65, 32, 120]])).2.dictionaries
      = [([109], [([65], [[120]])])] ∧
    (load_dictionary dictionary_manager.new [109] (some [[65, 32, 120]])).2.initialized
      = false := by
  decide

/-! ## The composition engine: unhandled keys and user words -/

/-- Claim C18. On an initialized engine every key-up event, and every
key-down event whose key is not a letter A-Z, a digit 1-9, Backspace, Escape,
Page-down, Page-up, Enter or Space, is reported as not handled and leaves the
whole state unchanged. -/
theorem unhandled_keys (s : fqwb_input_method) (key : Nat) (shift : Bool)
    (hinit : s.initialized = true) :
    process_key_input s key shift false = { ret := true, handled := false, state := s } ∧
    (¬ (65 ≤ key ∧ key ≤ 90) → ¬ (49 ≤ key ∧ key ≤ 57) → key ≠ VK_BACK → key ≠ VK_ESCAPE →
      key ≠ VK_NEXT → key ≠ VK_PRIOR → key ≠ VK_RETURN → key ≠ VK_SPACE →
      process_key_input s key shift true = { ret := true, handled := false, state := s }) := by
  constructor
  · simp [process_key_input, hinit]
  · intro h1 h2 h3 h4 h5 h6 h7 h8
    simp only [process_key_input, hinit, h1, h2, h3, h4, h5, h6, h7, h8]
    simp


/-- Witness for C18: with the code "AB" typed, the key-up of A and the
key-down of F1 (0x70) are not handled and change nothing. -/
theorem unhandled_keys_witness :
    (type_keys engine_abc [65, 66]).initialized = true ∧
    (type_keys engine_abc [65, 66]).current_code = [65, 66] ∧
    process_key_input (type_keys engine_abc [65, 66]) 65 false false =
      { ret := true, handled := false, state := type_keys engine_abc [65, 66] } ∧
    process_key_input (type_keys engine_abc [65, 66]) 0x70 true true =
      { ret := true, handled := false, state := type_keys engine_abc [65, 66] } :=
  ⟨by decide, by decide,
    (unhandled_keys (type_keys engine_abc [65, 66]) 65 false (by decide)).1,
    (unhandled_keys (type_keys engine_abc [65, 66]) 0x70 true (by decide)).2 (by decide)
      (by decide) (by decide) (by decide) (by decide) (by decide) (by decide) (by decide)⟩

/-- Claim C20. On an initialized engine `add_user_word code text` returns what
the store's `add_word code text` returns, changes the store exactly as
`add_word` does, and leaves code buffer, cached candidates, page, page size
and flags unchanged. -/
theorem add_user_word_forwards (s : fqwb_input_method) (code text : wstring)
    (hinit : s.initialized = true) :
    (add_user_word s code text).1 = (add_word s.dict_manager code text).1 ∧
    (add_user_word s code text).2 =
      { s with dict_manager := (add_word s.dict_manager code text).2 } ∧
    (add_user_word s code text).2.dict_manager = (add_word s.dict_manager code text).2 ∧
    (add_user_word s code text).2.current_code = s.current_code ∧
    (add_user_word s code text).2.current_candidates = s.current_candidates ∧
    (add_user_word s code text).2.current_page = s.current_page ∧
    (add_user_word s code text).2.page_size = s.page_size ∧
    (add_user_word s code text).2.auto_commit = s.auto_commit ∧
    (add_user_word s code text).2.shift_select = s.shift_select ∧
    (add_user_word s code text).2.initialized = s.initialized := by
  simp [add_user_word, hinit]


/-- Witness for C20: with the code "ABC" and its candidate "测试" on screen,
adding the user word "ABC" -> "x" returns true and extends the lookup of
"ABC" in the store to ["测试", "x"], while code and cached candidates stay
"ABC" and ["测试"]. -/
theorem add_user_word_forwards_witness :
    (type_keys engine_abc code_ABC).initialized = true ∧
    (add_user_word (type_keys engine_abc code_ABC) code_ABC [120]).1 = true ∧
    search_code (add_user_word (type_keys engine_abc code_ABC) code_ABC [120]).2.dict_manager
      code_ABC = [text_ceshi, [120]] ∧
    (add_user_word (type_keys engine_abc code_ABC) code_ABC [120]).2.current_code
      = code_ABC ∧
    (add_user_word (type_keys engine_abc code_ABC) code_ABC [120]).2.current_candidates
      = [text_ceshi] :=
  ⟨by decide,
    (add_user_word_forwards (type_keys engine_abc code_ABC) code_ABC [120]
      (by decide)).1.trans (by decide),
    by decide,
    (add_user_word_forwards (type_keys engine_abc code_ABC) code_ABC [120]
      (by decide)).2.2.2.1.trans (by decide),
    (add_user_word_forwards (type_keys engine_abc code_ABC) code_ABC [120]
      (by decide)).2.2.2.2.1.trans (by decide)⟩


/-! ## The composition engine: the code buffer -/

theorem select_candidate_state_cases (t : fqwb_input_method) (i : Int) :
    (select_candidate t i).2 = t ∨ (select_candidate t i).2 = clear_input t := by
  unfold select_candidate
  split_ifs
  · exact Or.inr rfl
  · exact Or.inl rfl

theorem control_key_step (s : fqwb_input_method) (key : Nat) (shift : Bool)
    (hinit : s.initialized = true) (hl : ¬ (65 ≤ key ∧ key ≤ 90))
    (hdg : ¬ (49 ≤ key ∧ key ≤ 57)) :
    process_key_input s key shift true =
      if key = VK_BACK then
        { ret := true, handled := true,
          state :=
            if s.current_code ≠ [] then
              { s with current_code := s.current_code.dropLast,
                       current_candidates :=
                         if s.current_code.dropLast ≠ [] then
                           search_code s.dict_manager s.current_code.dropLast
                         else [] }
            else s }
      else if key = VK_ESCAPE then { ret := true, handled := true, state := clear_input s }
      else if key = VK_NEXT then
        { ret := true, handled := true,
          state := if s.current_candidates ≠ [] then next_page s else s }
      else if key = VK_PRIOR then
        { ret := true, handled := true,
          state := if s.current_candidates ≠ [] then prev_page s else s }
      else if key = VK_RETURN ∨ key = VK_SPACE then
        { ret := true, handled := true,
          state := if s.current_candidates ≠ [] then (select_candidate s 0).2 else s }
      else { ret := true, handled := false, state := s } := by
  simp only [process_key_input, hinit, hl, hdg]
  simp only [Bool.not_true, Bool.false_eq_true, if_false, if_true]
  by_cases h1 : key = VK_BACK
  · simp only [h1, if_true]
    by_cases hc : s.current_code = []
    · simp [hc]
    · by_cases hc2 : s.current_code.dropLast = []
      · simp [hc, hc2]
      · simp [hc, hc2]
  · simp only [h1, if_false]
    by_cases h2 : key = VK_ESCAPE
    · simp only [h2, if_true]
    · simp only [h2, if_false]
      by_cases h3 : key = VK_NEXT
      · simp only [h3, if_true]
        split_ifs <;> rfl
      · simp only [h3, if_false]
        by_cases h4 : key = VK_PRIOR
        · simp only [h4, if_true]
          split_ifs <;> rfl
        · simp only [h4, if_false]
          by_cases h5 : key = VK_RETURN
          · simp only [h5, true_or, if_true]
            split_ifs <;> rfl
          · simp only [h5, false_or, if_false]
            by_cases h6 : key = VK_SPACE
            · simp only [h6, if_true]
              split_ifs <;> rfl
            · simp only [h6, if_false]

theorem key_state_cases (s : fqwb_input_method) (key : Nat) (shift down : Bool) :
    (process_key_input s key shift down).state = s ∨
    (process_key_input s key shift down).state = clear_input s ∨
    (process_key_input s key shift down).state = next_page s ∨
    (process_key_input s key shift down).state = prev_page s ∨
    ((65 ≤ key ∧ key ≤ 90) ∧
      ¬ (s.auto_commit = true ∧ (s.current_code ++ [key]).length = MAX_CODE_LENGTH ∧
          search_code s.dict_manager (s.current_code ++ [key]) ≠ []) ∧
      (process_key_input s key shift down).state =
        { s with current_code := s.current_code ++ [key],
                 current_candidates := search_code s.dict_manager (s.current_code ++ [key]) }) ∨
    (s.current_code ≠ [] ∧
      (process_key_input s key shift down).state =
        { s with current_code := s.current_code.dropLast,
                 current_candidates :=
                   if s.current_code.dropLast ≠ [] then
                     search_code s.dict_manager s.current_code.dropLast
                   else [] }) := by
  by_cases hi : s.initialized = true
  swap
  · left; simp [process_key_input, hi]
  cases down with
  | false => left; simp [process_key_input, hi]
  | true =>
    by_cases hl : 65 ≤ key ∧ key ≤ 90
    · by_cases hc : s.auto_commit = true ∧
          (s.current_code ++ [key]).length = MAX_CODE_LENGTH ∧
          search_code s.dict_manager (s.current_code ++ [key]) ≠ []
      · right; left
        rw [letter_key_step s key shift hi hl.1 hl.2, if_pos hc]
        rfl
      · right; right; right; right; left
        refine ⟨hl, hc, ?_⟩
        rw [letter_key_step s key shift hi hl.1 hl.2, if_neg hc]
    · by_cases hdg : 49 ≤ key ∧ key ≤ 57
      · have hk : key = 48 + (key - 48) := by omega
        rw [hk, digit_key_step s (key - 48) shift hi (by omega) (by omega)]
        by_cases hlt : (if s.shift_select = true ∧ shift = true then
            ((key - 48 : Nat) : Int) - 1 + 9 else ((key - 48 : Nat) : Int) - 1)
            < (s.current_candidates.length : Int)
        · rw [if_pos hlt]
          rcases select_candidate_state_cases s
            (if s.shift_select = true ∧ shift = true then ((key - 48 : Nat) : Int) - 1 + 9
             else ((key - 48 : Nat) : Int) - 1) with h | h
          · left; exact h
          · right; left; exact h
        · rw [if_neg hlt]
          left; rfl
      · rw [control_key_step s key shift hi hl hdg]
        by_cases h1 : key = VK_BACK
        · rw [if_pos h1]
          by_cases hc : s.current_code ≠ []
          · right; right; right; right; right
            exact ⟨hc, by simp only [if_pos hc]⟩
          · left; simp only [if_neg hc]
        · rw [if_neg h1]
          by_cases h2 : key = VK_ESCAPE
          · rw [if_pos h2]; right; left; rfl
          · rw [if_neg h2]
            by_cases h3 : key = VK_NEXT
            · rw [if_pos h3]
              by_cases hc : s.current_candidates ≠ []
              · right; right; left; simp only [if_pos hc]
              · left; simp only [if_neg hc]
            · rw [if_neg h3]
              by_cases h4 : key = VK_PRIOR
              · rw [if_pos h4]
                by_cases hc : s.current_candidates ≠ []
                · right; right; right; left; simp only [if_pos hc]
                · left; simp only [if_neg hc]
              · rw [if_neg h4]
                by_cases h5 : key = VK_RETURN ∨ key = VK_SPACE
                · rw [if_pos h5]
                  by_cases hc : s.current_candidates ≠ []
                  · simp only [if_pos hc]
                    rcases select_candidate_state_cases s 0 with h | h
                    · left; exact h
                    · right; left; exact h
                  · left; simp only [if_neg hc]
                · rw [if_neg h5]; left; rfl

theorem code_invariant_congr (s t : fqwb_input_method) (h : code_invariant s)
    (h1 : t.auto_commit = s.auto_commit) (h2 : t.current_code = s.current_code)
    (h3 : t.dict_manager = s.dict_manager) : code_invariant t := by
  unfold code_invariant at *
  rw [h1, h2, h3]
  exact h

theorem code_invariant_step (s : fqwb_input_method) (key : Nat) (shift down : Bool)
    (h : code_invariant s) :
    code_invariant (process_key_input s key shift down).state := by
  rcases key_state_cases s key shift down with hs | hs | hs | hs | ⟨hl, hc, hs⟩ | ⟨hne, hs⟩
  · rw [hs]; exact h
  · rw [hs]
    exact ⟨h.1, by simp [clear_input], Or.inl (by simp [clear_input])⟩
  · rw [hs]
    refine code_invariant_congr s _ h ?_ ?_ ?_ <;>
      (simp only [next_page]; split_ifs <;> rfl)
  · rw [hs]
    refine code_invariant_congr s _ h ?_ ?_ ?_ <;>
      (simp only [prev_page]; split_ifs <;> rfl)
  · rw [hs]
    obtain ⟨hac, hletters, hlen⟩ := h
    refine ⟨hac, ?_, ?_⟩
    · intro c hcm
      simp only [List.mem_append, List.mem_singleton] at hcm
      rcases hcm with hcm | hcm
      · exact hletters c hcm
      · subst hcm; exact hl
    · simp only []
      by_cases h3 : (s.current_code ++ [key]).length ≤ 3
      · exact Or.inl h3
      · right
        simp only [List.length_append, List.length_singleton] at h3
        by_cases h4 : s.current_code.length = 3
        · have hlen4 : (s.current_code ++ [key]).length = MAX_CODE_LENGTH := by
            simp [h4, MAX_CODE_LENGTH]
          have htake : (s.current_code ++ [key]).take 4 = s.current_code ++ [key] :=
            List.take_of_length_le (by simp [h4])
          rw [htake]
          by_contra hne
          exact hc ⟨hac, hlen4, hne⟩
        · have hge : 4 ≤ s.current_code.length := by omega
          rw [List.take_append_of_le_length hge]
          rcases hlen with hlen | hlen
          · omega
          · exact hlen
  · rw [hs]
    obtain ⟨hac, hletters, hlen⟩ := h
    refine ⟨hac, ?_, ?_⟩
    · intro c hcm
      exact hletters c (List.mem_of_mem_dropLast hcm)
    · simp only []
      by_cases h3 : s.current_code.dropLast.length ≤ 3
      · exact Or.inl h3
      · right
        simp only [List.length_dropLast] at h3
        rcases hlen with hlen | hlen
        · omega
        · rw [List.dropLast_eq_take, List.take_take]
          have : min 4 (s.current_code.length - 1) = 4 := by omega
          rw [this]
          exact hlen

theorem code_invariant_events (events : List key_event) :
    ∀ s : fqwb_input_method, code_invariant s → code_invariant (handle_events s events) := by
  induction events with
  | nil => intro s h; exact h
  | cons e rest ih =>
    intro s h
    simp only [handle_events, List.foldl_cons]
    exact ih _ (code_invariant_step s e.key_code e.shift_pressed e.is_down h)

theorem initialize_input_method_fields (dir : wstring) (entries : List dir_entry) :
    (initialize_input_method fqwb_input_method.new dir entries).1 = true ∧
    (initialize_input_method fqwb_input_method.new dir entries).2.initialized = true ∧
    (initialize_input_method fqwb_input_method.new dir entries).2.current_code = [] ∧
    (initialize_input_method fqwb_input_method.new dir entries).2.current_candidates = [] ∧
    (initialize_input_method fqwb_input_method.new dir entries).2.current_page = 0 ∧
    (initialize_input_method fqwb_input_method.new dir entries).2.page_size = 9 ∧
    (initialize_input_method fqwb_input_method.new dir entries).2.auto_commit = true ∧
    (initialize_input_method fqwb_input_method.new dir entries).2.shift_select = true := by
  have h1 : (initialize_dictionary_manager dictionary_manager.new dir entries).1 = true := by
    unfold initialize_dictionary_manager
    simp only []
    split_ifs <;> rfl
  simp [initialize_input_method, h1, fqwb_input_method.new]

/-- Claim C19 (amended). In every state reached from a freshly initialized
engine by key events (auto-commit stays on), the code buffer holds only the
letter key codes A-Z, and it holds more than three of them only when its first
four letters are a code without candidates in the active dictionary. -/
theorem code_letters_reachable (dir : wstring) (entries : List dir_entry)
    (events : List key_event) :
    (handle_events (initialize_input_method fqwb_input_method.new dir entries).2
      events).auto_commit = true ∧
    (∀ c ∈ (handle_events (initialize_input_method fqwb_input_method.new dir entries).2
      events).current_code, 65 ≤ c ∧ c ≤ 90) ∧
    ((handle_events (initialize_input_method fqwb_input_method.new dir entries).2
        events).current_code.length ≤ 3 ∨
      search_code (handle_events (initialize_input_method fqwb_input_method.new dir
          entries).2 events).dict_manager
        ((handle_events (initialize_input_method fqwb_input_method.new dir entries).2
          events).current_code.take 4) = []) := by
  obtain ⟨_, _, hcode, _, _, _, hac, _⟩ := initialize_input_method_fields dir entries
  exact code_invariant_events events _ ⟨hac, by rw [hcode]; simp, Or.inl (by rw [hcode]; simp)⟩

/-- Witness for C19 (amended): dictionary "ABC" -> ["测试"]; after the
key-downs A, B, C, D, E the code "ABCDE" holds letters only, and its first
four letters "ABCD" have no candidates. -/
theorem code_letters_reachable_witness :
    (handle_events engine_abc events_ABCDE).current_code = [65, 66, 67, 68, 69] ∧
    (∀ c ∈ (handle_events engine_abc events_ABCDE).current_code, 65 ≤ c ∧ c ≤ 90) ∧
    search_code (handle_events engine_abc events_ABCDE).dict_manager [65, 66, 67, 68] = [] :=
  ⟨by decide,
    (code_letters_reachable [68]
      [⟨[119, 46, 100, 105, 99], false, some [[65, 66, 67, 32, 0x6D4B, 0x8BD5]]⟩]
      events_ABCDE).2.1,
    (code_letters_reachable [68]
      [⟨[119, 46, 100, 105, 99], false, some [[65, 66, 67, 32, 0x6D4B, 0x8BD5]]⟩]
      events_ABCDE).2.2.resolve_left (by decide)⟩

/-- Counterexample to C19 as stated: with the dictionary "ABC" -> ["测试"] and
auto-commit left on, the key-downs A, B, C, D, E lead to the code "ABCDE" of
five letters: "ABCD" has no candidates, so nothing is committed at the fourth
letter and the fifth one is appended. -/
theorem code_longer_than_four :
    engine_abc.initialized = true ∧ engine_abc.auto_commit = true ∧
    engine_abc.current_code = [] ∧
    (handle_events engine_abc events_ABCDE).auto_commit = true ∧
    (handle_events engine_abc events_ABCDE).current_code = [65, 66, 67, 68, 69] ∧
    (handle_events engine_abc events_ABCDE).current_code.length = 5 ∧
    ¬ (handle_events engine_abc events_ABCDE).current_code.length ≤ 4 := by
  decide

/-! ## The composition engine: the candidate cache -/

theorem key_state_dict_manager (s : fqwb_input_method) (key : Nat) (shift down : Bool) :
    (process_key_input s key shift down).state.dict_manager = s.dict_manager := by
  rcases key_state_cases s key shift down with hs | hs | hs | hs | ⟨_, _, hs⟩ | ⟨_, hs⟩ <;>
    rw [hs]
  · rfl
  · simp only [next_page]; split_ifs <;> rfl
  · simp only [prev_page]; split_ifs <;> rfl

theorem candidates_cached_step (s : fqwb_input_method) (key : Nat) (shift down : Bool)
    (h : candidates_cached s) :
    candidates_cached (process_key_input s key shift down).state := by
  rcases key_state_cases s key shift down with hs | hs | hs | hs | ⟨_, _, hs⟩ | ⟨_, hs⟩ <;>
    rw [hs]
  · exact h
  · exact ⟨fun _ => rfl, fun hne => absurd rfl hne⟩
  · have e1 : (next_page s).current_code = s.current_code := by
      simp only [next_page]; split_ifs <;> rfl
    have e2 : (next_page s).current_candidates = s.current_candidates := by
      simp only [next_page]; split_ifs <;> rfl
    have e3 : (next_page s).dict_manager = s.dict_manager := by
      simp only [next_page]; split_ifs <;> rfl
    unfold candidates_cached
    rw [e1, e2, e3]
    exact h
  · have e1 : (prev_page s).current_code = s.current_code := by
      simp only [prev_page]; split_ifs <;> rfl
    have e2 : (prev_page s).current_candidates = s.current_candidates := by
      simp only [prev_page]; split_ifs <;> rfl
    have e3 : (prev_page s).dict_manager = s.dict_manager := by
      simp only [prev_page]; split_ifs <;> rfl
    unfold candidates_cached
    rw [e1, e2, e3]
    exact h
  · exact ⟨fun hnil => absurd hnil (by simp), fun _ => rfl⟩
  · refine ⟨fun hnil => ?_, fun hne => ?_⟩
    · have hnil2 : s.current_code.dropLast = [] := hnil
      simp only [hnil2, ne_eq, not_true_eq_false, if_false]
    · have hne2 : s.current_code.dropLast ≠ [] := hne
      simp only [hne2, ne_eq, not_false_eq_true, if_true]

theorem candidates_cached_events (events : List key_event) :
    ∀ s : fqwb_input_method, candidates_cached s →
      candidates_cached (handle_events s events) ∧
      (handle_events s events).dict_manager = s.dict_manager := by
  induction events with
  | nil => intro s h; exact ⟨h, rfl⟩
  | cons e rest ih =>
    intro s h
    simp only [handle_events, List.foldl_cons]
    obtain ⟨h1, h2⟩ := ih _ (candidates_cached_step s e.key_code e.shift_pressed e.is_down h)
    exact ⟨h1, h2.trans (key_state_dict_manager s e.key_code e.shift_pressed e.is_down)⟩

theorem letters_run (events : List key_event) :
    ∀ s : fqwb_input_method, s.initialized = true → events ≠ [] →
      (∀ e ∈ events, e.is_down = true ∧ 65 ≤ e.key_code ∧ e.key_code ≤ 90) →
      (∀ n, 0 < n → n ≤ events.length →
        ¬ (s.auto_commit = true ∧
           (s.current_code ++ (events.take n).map key_event.key_code).length
              = MAX_CODE_LENGTH ∧
           search_code s.dict_manager
              (s.current_code ++ (events.take n).map key_event.key_code) ≠ [])) →
      handle_events s events =
        { s with
          current_code := s.current_code ++ events.map key_event.key_code,
          current_candidates :=
            search_code s.dict_manager (s.current_code ++ events.map key_event.key_code) } := by
  induction events with
  | nil => intro s _ hne; exact absurd rfl hne
  | cons e rest ih =>
    intro s hinit _ hletters hno
    obtain ⟨hd, hk1, hk2⟩ := hletters e (List.mem_cons_self _ _)
    have h1 := hno 1 (by decide) (by simp)
    simp only [List.take_succ_cons, List.take_zero, List.map_cons, List.map_nil] at h1
    have hstep : (process_key_input s e.key_code e.shift_pressed e.is_down).state =
        { s with current_code := s.current_code ++ [e.key_code],
                 current_candidates :=
                   search_code s.dict_manager (s.current_code ++ [e.key_code]) } := by
      rw [hd, letter_key_step s e.key_code e.shift_pressed hinit hk1 hk2, if_neg h1]
    simp only [handle_events, List.foldl_cons]
    by_cases hrest : rest = []
    · subst hrest
      rw [hstep]
      simp
    · have hs1i : (process_key_input s e.key_code e.shift_pressed e.is_down).state.initialized
          = true := by rw [hstep]; exact hinit
      have hrun := ih (process_key_input s e.key_code e.shift_pressed e.is_down).state
        hs1i hrest (fun x hx => hletters x (List.mem_cons_of_mem _ hx))
        (by
          intro n hn0 hnl
          rw [hstep]
          have := hno (n + 1) (by omega) (by simp; omega)
          simpa [List.take_succ_cons, List.append_assoc] using this)
      simp only [handle_events] at hrun
      rw [hrun, hstep]
      simp [List.append_assoc]

/-- Claim C21. In every state reached from a freshly initialized engine by key
events, the cached candidate list is empty when the code buffer is empty and
is the lookup of the code buffer otherwise (the store being the one left by
`initialize`). And from any initialized state with an empty code, a run of
letter key-downs that triggers no auto-commit leaves the code equal to the
typed letters in order and the candidates equal to the lookup of that code. -/
theorem candidates_follow_code (dir : wstring) (entries : List dir_entry)
    (events : List key_event) :
    ((handle_events (initialize_input_method fqwb_input_method.new dir entries).2
        events).current_code = [] →
      (handle_events (initialize_input_method fqwb_input_method.new dir entries).2
        events).current_candidates = []) ∧
    ((handle_events (initialize_input_method fqwb_input_method.new dir entries).2
        events).current_code ≠ [] →
      (handle_events (initialize_input_method fqwb_input_method.new dir entries).2
        events).current_candidates =
        search_code (initialize_input_method fqwb_input_method.new dir entries).2.dict_manager
          (handle_events (initialize_input_method fqwb_input_method.new dir entries).2
            events).current_code) ∧
    (handle_events (initialize_input_method fqwb_input_method.new dir entries).2
        events).dict_manager
      = (initialize_input_method fqwb_input_method.new dir entries).2.dict_manager ∧
    (∀ (s : fqwb_input_method) (letters : List key_event),
      s.initialized = true → s.current_code = [] → letters ≠ [] →
      (∀ e ∈ letters, e.is_down = true ∧ 65 ≤ e.key_code ∧ e.key_code ≤ 90) →
      ¬ (s.auto_commit = true ∧ 4 ≤ letters.length ∧
          search_code s.dict_manager ((letters.map key_event.key_code).take 4) ≠ []) →
      (handle_events s letters).current_code = letters.map key_event.key_code ∧
      (handle_events s letters).current_candidates
        = search_code s.dict_manager (letters.map key_event.key_code) ∧
      (handle_events s letters).dict_manager = s.dict_manager) := by
  obtain ⟨_, _, hcode, hcand, _, _, _, _⟩ := initialize_input_method_fields dir entries
  have h0 : candidates_cached (initialize_input_method fqwb_input_method.new dir entries).2 :=
    ⟨fun _ => hcand, fun hne => absurd hcode hne⟩
  obtain ⟨⟨h1, h2⟩, h3⟩ := candidates_cached_events events _ h0
  refine ⟨h1, ?_, h3, ?_⟩
  · intro hne
    rw [← h3]
    exact h2 hne
  · intro s letters hinit hempty hne hletters hno
    have hrun := letters_run letters s hinit hne hletters (by
      intro n hn0 hnl hcon
      obtain ⟨hac, hlen, hfound⟩ := hcon
      rw [hempty] at hlen hfound
      simp only [List.nil_append, List.length_map, List.length_take, MAX_CODE_LENGTH] at hlen
      have hn4 : n = 4 := by omega
      subst hn4
      apply hno
      refine ⟨hac, hnl, ?_⟩
      rw [List.map_take] at hfound
      simpa using hfound)
    rw [hrun, hempty]
    simp

/-- Witness for C21: dictionary "ABC" -> ["测试"]. After A, B, C the code is
"ABC" and the candidates are its lookup ["测试"]; the run A, B, C, D, E commits
nothing ("ABCD" has no candidates) and leaves the code "ABCDE" with the
lookup of "ABCDE", which is empty. -/
theorem candidates_follow_code_witness :
    (handle_events engine_abc events_ABC).current_code = code_ABC ∧
    (handle_events engine_abc events_ABC).current_candidates
      = search_code engine_abc.dict_manager (handle_events engine_abc events_ABC).current_code ∧
    (handle_events engine_abc events_ABC).current_candidates = [text_ceshi] ∧
    (handle_events engine_abc events_ABCDE).current_code = [65, 66, 67, 68, 69] ∧
    (handle_events engine_abc events_ABCDE).current_candidates
      = search_code engine_abc.dict_manager [65, 66, 67, 68, 69] :=
  ⟨by decide,
    (candidates_follow_code [68]
      [⟨[119, 46, 100, 105, 99], false, some [[65, 66, 67, 32, 0x6D4B, 0x8BD5]]⟩]
      events_ABC).2.1 (by decide),
    by decide,
    ((candidates_follow_code [68] [] []).2.2.2 engine_abc events_ABCDE (by decide) (by decide)
      (by decide) (by decide) (by decide)).1,
    ((candidates_follow_code [68] [] []).2.2.2 engine_abc events_ABCDE (by decide) (by decide)
      (by decide) (by decide) (by decide)).2.1⟩

/-! ## The composition engine: page keys -/

theorem get_total_pages_eq_max_ceil (s : fqwb_input_method) (hp : 0 < s.page_size) :
    get_total_pages s =
      max 1 ⌈((s.current_candidates.length : ℚ) / (s.page_size : ℚ))⌉ := by
  obtain ⟨p, hpe⟩ : ∃ p : Nat, s.page_size = (p : Int) :=
    ⟨s.page_size.toNat, (Int.toNat_of_nonneg hp.le).symm⟩
  have hp0 : 0 < p := by omega
  by_cases hc : s.current_candidates = []
  · simp [get_total_pages, hc]
  · have hn : 0 < s.current_candidates.length := List.length_pos.mpr hc
    have hnot : ¬ ((p : Int) ≤ 0) := by omega
    simp only [get_total_pages, hpe, hnot, hc, or_self, if_false, Int.toNat_ofNat]
    obtain ⟨hceil, hq1⟩ := ceil_div_nat _ p hn hp0
    rw [Int.cast_natCast, hceil]
    have hle : (1 : Int) ≤ (((s.current_candidates.length + p - 1) / p : Nat) : Int) := by
      exact_mod_cast hq1
    exact (max_eq_right hle).symm

/-- Claim C22. On an initialized engine with a positive page size, Page-down
adds 1 to the page index when the candidate list is non-empty and the page is
below `totalPages - 1`, and Page-up subtracts 1 when the list is non-empty and
the page is above 0; otherwise the page is unchanged. Both keys are reported
handled and change nothing but the page index; `totalPages` is
`max(1, ceil(n / p))`. -/
theorem page_keys (s : fqwb_input_method) (shift : Bool)
    (hinit : s.initialized = true) (hp : 0 < s.page_size) :
    process_key_input s VK_NEXT shift true =
      { ret := true, handled := true,
        state :=
          { s with
            current_page :=
              if s.current_candidates ≠ [] ∧ s.current_page < get_total_pages s - 1 then
                s.current_page + 1
              else s.current_page } } ∧
    process_key_input s VK_PRIOR shift true =
      { ret := true, handled := true,
        state :=
          { s with
            current_page :=
              if s.current_candidates ≠ [] ∧ s.current_page > 0 then s.current_page - 1
              else s.current_page } } ∧
    get_total_pages s =
      max 1 ⌈((s.current_candidates.length : ℚ) / (s.page_size : ℚ))⌉ := by
  refine ⟨?_, ?_, get_total_pages_eq_max_ceil s hp⟩
  · rw [control_key_step s VK_NEXT shift hinit (by decide) (by decide)]
    rw [if_neg (by decide), if_neg (by decide), if_pos rfl]
    by_cases hc : s.current_candidates ≠ []
    · by_cases hlt : s.current_page < get_total_pages s - 1
      · simp only [if_pos hc, next_page, if_pos hlt, if_pos (And.intro hc hlt)]
      · simp only [if_pos hc, next_page, if_neg hlt, hlt, and_false, if_false]
    · simp only [if_neg hc, hc, false_and, if_false]
  · rw [control_key_step s VK_PRIOR shift hinit (by decide) (by decide)]
    rw [if_neg (by decide), if_neg (by decide), if_neg (by decide), if_pos rfl]
    by_cases hc : s.current_candidates ≠ []
    · by_cases hlt : s.current_page > 0
      · simp only [if_pos hc, prev_page, if_pos hlt, if_pos (And.intro hc hlt)]
      · simp only [if_pos hc, prev_page, if_neg hlt, hlt, and_false, if_false]
    · simp only [if_neg hc, hc, false_and, if_false]

/-- Witness for C22: ten candidates, page size 9 (two pages). Page-down moves
from page 0 to page 1 and then stays on page 1; Page-up moves back to page 0
and then stays on page 0; without candidates Page-down changes nothing. -/
theorem page_keys_witness :
    get_total_pages (type_keys engine_ten [65]) = 2 ∧
    process_key_input (type_keys engine_ten [65]) VK_NEXT false true =
      { ret := true, handled := true,
        state := { type_keys engine_ten [65] with current_page := 1 } } ∧
    process_key_input (type_keys engine_ten [65, VK_NEXT]) VK_NEXT false true =
      { ret := true, handled := true, state := type_keys engine_ten [65, VK_NEXT] } ∧
    process_key_input (type_keys engine_ten [65, VK_NEXT]) VK_PRIOR false true =
      { ret := true, handled := true, state := type_keys engine_ten [65] } ∧
    process_key_input (type_keys engine_ten [65]) VK_PRIOR false true =
      { ret := true, handled := true, state := type_keys engine_ten [65] } ∧
    process_key_input engine_ten VK_NEXT false true =
      { ret := true, handled := true, state := engine_ten } :=
  ⟨by decide,
    (page_keys (type_keys engine_ten [65]) false (by decide) (by decide)).1.trans (by decide),
    (page_keys (type_keys engine_ten [65, VK_NEXT]) false (by decide) (by decide)).1.trans
      (by decide),
    (page_keys (type_keys engine_ten [65, VK_NEXT]) false (by decide) (by decide)).2.1.trans
      (by decide),
    (page_keys (type_keys engine_ten [65]) false (by decide) (by decide)).2.1.trans (by decide),
    (page_keys engine_ten false (by decide) (by decide)).1.trans (by decide)⟩

/-! ## The dictionary store: snapshot and stored copy -/

theorem mirrored_switch_dictionary (s : dictionary_manager) (name : wstring)
    (h : mirrored s) : mirrored (switch_dictionary s name).2 := by
  unfold switch_dictionary
  by_cases hi : s.initialized = true
  · cases hf : map_find s.dictionaries name with
    | none => simpa [hi, hf] using h
    | some d => simp [hi, hf, mirrored]
  · have hi2 : s.initialized = false := by simpa using hi
    simpa [hi2] using h

theorem switch_dictionary_active (s : dictionary_manager) (h : mirrored s) :
    (switch_dictionary s s.current_dict_name).2 = s := by
  unfold switch_dictionary
  by_cases hi : s.initialized = true
  · cases hf : map_find s.dictionaries s.current_dict_name with
    | none => simp [hi, hf]
    | some d =>
      have hd : s.dict = d := by
        have := h
        unfold mirrored at this
        rw [hf] at this
        exact this
      subst hd
      obtain ⟨a, b, c, e, f⟩ := s
      simp_all
  · have hi2 : s.initialized = false := by simpa using hi
    simp [hi2]

theorem mirrored_add_word (s : dictionary_manager) (code text : wstring)
    (h : mirrored s) (hk : s.current_dict_name ≠ [] ∨ s.initialized = false) :
    mirrored (add_word s code text).2 := by
  by_cases hi : s.initialized = true
  · have hn : s.current_dict_name ≠ [] := by
      rcases hk with hk | hk
      · exact hk
      · rw [hi] at hk; cases hk
    unfold mirrored at h ⊢
    simp only [add_word, hi, hn, Bool.not_true, Bool.false_eq_true, if_false, ne_eq,
      not_false_eq_true, if_true]
    rw [map_find_set_same, ← h]
    rfl
  · have hi2 : s.initialized = false := by simpa using hi
    simpa [add_word, hi2] using h

theorem mirrored_load_dictionary (s : dictionary_manager) (name : wstring)
    (file : Option (List wstring)) (h : mirrored s)
    (hk : name ≠ s.current_dict_name ∨ (load_dictionary s name file).1 = false) :
    mirrored (load_dictionary s name file).2 := by
  cases file with
  | none => simpa [load_dictionary] using h
  | some lines =>
    by_cases hnil : load_lines lines = []
    · simpa [load_dictionary, hnil] using h
    · have hne : name ≠ s.current_dict_name := by
        rcases hk with hk | hk
        · exact hk
        · simp [load_dictionary, hnil] at hk
      unfold mirrored at h ⊢
      simp only [load_dictionary, ne_eq, hnil, not_false_eq_true, if_true]
      rw [map_find_set_other _ _ _ _ (Ne.symm hne)]
      exact h

theorem initialize_entry_initialized (s : dictionary_manager) (e : dir_entry)
    (hi : s.initialized = true) : (initialize_entry s e).initialized = true := by
  cases he : entry_dictionary e with
  | none => rw [initialize_entry_of_none s e he]; exact hi
  | some d =>
    rw [initialize_entry_of_some s e d he]
    split_ifs
    · rw [switch_dictionary_of_find
        { s with dictionaries := map_set s.dictionaries (dict_name_of e.cFileName) d }
        (dict_name_of e.cFileName) d hi (map_find_set_same _ _ _)]
      exact hi
    · exact hi

theorem initialize_entry_dictionaries (s : dictionary_manager) (e : dir_entry) (d : dictionary)
    (hi : s.initialized = true) (he : entry_dictionary e = some d) :
    (initialize_entry s e).dictionaries
      = map_set s.dictionaries (dict_name_of e.cFileName) d := by
  rw [initialize_entry_of_some s e d he]
  split_ifs
  · rw [switch_dictionary_of_find
        { s with dictionaries := map_set s.dictionaries (dict_name_of e.cFileName) d }
        (dict_name_of e.cFileName) d hi (map_find_set_same _ _ _)]
  · rfl

theorem mirrored_initialize_entry (s : dictionary_manager) (e : dir_entry)
    (hi : s.initialized = true) (h : mirrored s) (hk : entry_keeps_mirror s e = true) :
    mirrored (initialize_entry s e) := by
  cases he : entry_dictionary e with
  | none => rw [initialize_entry_of_none s e he]; exact h
  | some d =>
    have hds := initialize_entry_dictionaries s e d hi he
    rw [initialize_entry_of_some s e d he]
    by_cases hlen : (map_set s.dictionaries (dict_name_of e.cFileName) d).length = 1
    · rw [if_pos hlen, switch_dictionary_of_find
        { s with dictionaries := map_set s.dictionaries (dict_name_of e.cFileName) d }
        (dict_name_of e.cFileName) d hi (map_find_set_same _ _ _)]
      simp [mirrored, map_find_set_same]
    · rw [if_neg hlen]
      have hne : dict_name_of e.cFileName ≠ s.current_dict_name := by
        simp only [entry_keeps_mirror, he, Option.isNone_some, Bool.false_or, Bool.or_eq_true,
          decide_eq_true_eq] at hk
        rcases hk with hk | hk
        · exact hk
        · rw [hds] at hk
          exact absurd hk hlen
      unfold mirrored at h ⊢
      simp only []
      rw [map_find_set_other _ _ _ _ (Ne.symm hne)]
      exact h

theorem mirrored_foldl_initialize_entry (entries : List dir_entry) :
    ∀ s : dictionary_manager, s.initialized = true → mirrored s →
      entries_keep_mirror s entries = true →
      mirrored (entries.foldl initialize_entry s) := by
  induction entries with
  | nil => intro s _ h _; exact h
  | cons e rest ih =>
    intro s hi h hk
    simp only [entries_keep_mirror, Bool.and_eq_true] at hk
    simp only [List.foldl_cons]
    exact ih _ (initialize_entry_initialized s e hi) (mirrored_initialize_entry s e hi h hk.1)
      hk.2

theorem mirrored_initialize (s : dictionary_manager) (dir : wstring)
    (entries : List dir_entry) (h : mirrored s)
    (hk : entries_keep_mirror { s with data_dir := dir, initialized := true } entries = true) :
    mirrored (initialize_dictionary_manager s dir entries).2 := by
  have h1 : mirrored { s with data_dir := dir, initialized := true } := h
  have h2 := mirrored_foldl_initialize_entry entries _ rfl h1 hk
  unfold initialize_dictionary_manager
  simp only []
  split_ifs
  · simp [mirrored, map_find_set_same]
  · exact h2

theorem mirrored_apply_call (s : dictionary_manager) (c : store_call) (h : mirrored s)
    (hk : call_keeps_mirror s c = true) : mirrored (apply_call s c) := by
  cases c with
  | init dir entries => exact mirrored_initialize s dir entries h hk
  | load name file =>
    apply mirrored_load_dictionary s name file h
    simpa [call_keeps_mirror] using hk
  | add code text =>
    apply mirrored_add_word s code text h
    simpa [call_keeps_mirror] using hk
  | switch name => exact mirrored_switch_dictionary s name h

theorem mirrored_run_calls (calls : List store_call) :
    ∀ s : dictionary_manager, mirrored s → calls_keep_mirror s calls = true →
      mirrored (run_calls s calls) := by
  induction calls with
  | nil => intro s h _; exact h
  | cons c rest ih =>
    intro s h hk
    simp only [calls_keep_mirror, Bool.and_eq_true] at hk
    simp only [run_calls, List.foldl_cons]
    exact ih _ (mirrored_apply_call s c h hk.1) hk.2

/-- Claim C23 (amended). For every sequence of `initialize`, `load_dictionary`,
`add_word` and `switch_dictionary` calls on a newly constructed store in which
`add_word` is never called on an initialized store with an empty active name
and no dictionary is successfully loaded under the name active at that
moment (a load by `initialize` that leaves a single registered dictionary
apart): the active snapshot equals the dictionary stored under the active
name, an unregistered name counting as the empty dictionary, and switching to
the already-active name changes neither the store nor any lookup. -/
theorem snapshot_mirrors_stored (calls : List store_call)
    (hk : calls_keep_mirror dictionary_manager.new calls = true) :
    (run_calls dictionary_manager.new calls).dict =
      (map_find (run_calls dictionary_manager.new calls).dictionaries
        (run_calls dictionary_manager.new calls).current_dict_name).getD [] ∧
    (switch_dictionary (run_calls dictionary_manager.new calls)
      (run_calls dictionary_manager.new calls).current_dict_name).2
      = run_calls dictionary_manager.new calls ∧
    ∀ c, search_code (switch_dictionary (run_calls dictionary_manager.new calls)
        (run_calls dictionary_manager.new calls).current_dict_name).2 c
      = search_code (run_calls dictionary_manager.new calls) c := by
  have h := mirrored_run_calls calls dictionary_manager.new rfl hk
  have hsw := switch_dictionary_active _ h
  exact ⟨h, hsw, fun c => by rw [hsw]⟩

/-- Witness for C23 (amended): `initialize` on "w.dic" and "v.dic", a word
added to "w", a dictionary loaded under "m", a switch to "v", a word added to
"v" and a switch back to "w": the snapshot is the dictionary stored under
"w", with the added word. -/
theorem snapshot_mirrors_stored_witness :
    calls_keep_mirror dictionary_manager.new calls_mirrored = true ∧
    (run_calls dictionary_manager.new calls_mirrored).current_dict_name = [119] ∧
    (run_calls dictionary_manager.new calls_mirrored).dict
      = [([65], [[120]]), ([67], [[122]])] ∧
    (run_calls dictionary_manager.new calls_mirrored).dict =
      (map_find (run_calls dictionary_manager.new calls_mirrored).dictionaries
        (run_calls dictionary_manager.new calls_mirrored).current_dict_name).getD [] ∧
    (switch_dictionary (run_calls dictionary_manager.new calls_mirrored)
      (run_calls dictionary_manager.new calls_mirrored).current_dict_name).2
      = run_calls dictionary_manager.new calls_mirrored :=
  ⟨by decide, by decide, by decide,
    (snapshot_mirrors_stored calls_mirrored (by decide)).1,
    (snapshot_mirrors_stored calls_mirrored (by decide)).2.1⟩

/-- Counterexample to C23 as stated. After `initialize` on an empty directory
and `load_dictionary` of the file "A x" under the active name "default", the
dictionary stored under "default" is {"A" -> ["x"]} while the snapshot is
still the built-in one: the lookup of "abc" gives ["测试"], and nothing after
switching to the already-active "default". After `add_word` with the empty
active name the snapshot holds a word its stored copy lacks; and `initialize`
on "w.dic", "v.dic", "w.dict" leaves "w" active with the snapshot of the first
file and the stored dictionary of the third. -/
theorem snapshot_differs_from_stored :
    ((run_calls dictionary_manager.new calls_reload_active).initialized = true ∧
     (run_calls dictionary_manager.new calls_reload_active).current_dict_name = L_default ∧
     map_find (run_calls dictionary_manager.new calls_reload_active).dictionaries L_default
       = some [([65], [[120]])] ∧
     (run_calls dictionary_manager.new calls_reload_active).dict ≠ [([65], [[120]])] ∧
     search_code (run_calls dictionary_manager.new calls_reload_active) [97, 98, 99]
       = [text_ceshi] ∧
     search_code (switch_dictionary (run_calls dictionary_manager.new calls_reload_active)
       (run_calls dictionary_manager.new calls_reload_active).current_dict_name).2
       [97, 98, 99] = []) ∧
    ((run_calls dictionary_manager.new calls_add_empty_name).current_dict_name = [] ∧
     (run_calls dictionary_manager.new calls_add_empty_name).dict
       = [([65], [[120]]), ([66], [[121]])] ∧
     map_find (run_calls dictionary_manager.new calls_add_empty_name).dictionaries []
       = some [([65], [[120]])]) ∧
    ((run_calls dictionary_manager.new calls_init_three).current_dict_name = [119] ∧
     (run_calls dictionary_manager.new calls_init_three).dict = [([65], [[120]])] ∧
     map_find (run_calls dictionary_manager.new calls_init_three).dictionaries [119]
       = some [([67], [[122]])]) :=
  ⟨by decide, by decide, by decide⟩

end Fqwb
